import Mathlib

/-!
# The in-memory store of the storage emulator (`storage/gcsemu/memstore.go`)

A shallow embedding of `memstore` and of its `Store` operations.

* A Go `string` is a Lean `String`; the order `<` on `String` is the
  lexicographic order, which is the order Go's `<` gives on UTF-8 text.
* A `[]byte` payload is a list of bytes, each byte a `Nat`.
* A Go `error` is its message, `nil` is `none`.
* `time.Now()` is an explicit input of every operation that samples the clock.
* A `*storage.Object` the caller passes is either a record of the caller's
  own, taken as a value (`memstore.Add`, `memstore.UpdateMeta`), or the
  pointer into the store that `Get` returned, through which the operation
  writes the stored item (`memstore.AddAliased`, `memstore.UpdateMetaAliased`);
  `MetaPtr` is the choice between the two.
* The mutexes are not modelled: operations run one after the other.
* The ordered index (`github.com/google/btree`) is the list of its items in
  ascending order, together with the operations the store calls on it.  The
  operations assume, and do not require, that the list is ordered;
  `BTree.Ordered` states that it is, and is kept by every operation that is
  called with a record of the caller's own.
-/

namespace gcsemu

/-- A Go `error`, represented by its message. -/
abbrev error := String

/-- The value `os.ErrNotExist`. -/
def ErrNotExist : error := "file does not exist"

/-- The failure of a dereference of a nil pointer (a Go run-time fault). -/
def nilDereference : error := "invalid memory address or nil pointer dereference"

/-- A value of `time.Time`, seen through the two accessors the store uses:
`UnixNano()` and `UTC().Format(time.RFC3339Nano)`. -/
structure Time where
  unixNano : Int
  rfc3339Nano : String
deriving DecidableEq, Repr

/-- The fields of `storage.Object` the store reads or writes, and `Metadata`,
the caller's own key/value pairs. -/
structure Object where
  Bucket : String
  Name : String
  Size : Nat
  Generation : Int
  Metageneration : Int
  TimeCreated : String
  Updated : String
  Metadata : List (String × String)
deriving DecidableEq, Repr

/-- The fields of `storage.Bucket` the store reads or writes. -/
structure Bucket where
  Name : String
  Updated : String
deriving DecidableEq, Repr

/-- Modelled from the spec: `initMeta` is not among the source files.  The
canonicalizer forces the identity fields (bucket, name, size) to the given
values, whatever the caller passed. -/
def initMeta (meta : Object) (bucket filename : String) (size : Nat) : Object :=
  { meta with Bucket := bucket, Name := filename, Size := size }

/-- Modelled from the spec: `scrubMeta` is not among the source files.  The
scrub step strips the server-owned fields the backend then assigns, the
generation and the updated timestamp, from the caller's record.  The creation
timestamp passes through it: the source tests `meta.TimeCreated` after the
scrub (line 100), `Copy` clears it before `Add` (line 142), and the spec has
the backend assign it only "if not already set". -/
def scrubMeta (meta : Object) : Object :=
  { meta with Generation := 0, Updated := "" }

/-- Modelled from the spec: `bucketMeta` is not among the source files.  The
metadata of a bucket carries its name. -/
def bucketMeta (bucket : String) : Bucket :=
  { Name := bucket, Updated := "" }

/-- An item of the index: `memFile`. -/
structure memFile where
  meta : Object
  data : List Nat
deriving DecidableEq, Repr

/-- The order of the index: `memFile.Less`. -/
def memFile.Less (mf than : memFile) : Bool :=
  decide (mf.meta.Name < than.meta.Name)

/-- The ordered index: its items, smallest first. -/
abbrev BTree := List memFile

/-- The empty index: `btree.New`. -/
def BTree.New : BTree := []

/-- The item of the tree equal to `key` (neither is `Less` than the other),
if there is one: `BTree.Get`. -/
def BTree.Get : BTree → memFile → Option memFile
  | [], _ => none
  | x :: xs, key =>
    if x.Less key then BTree.Get xs key
    else if key.Less x then none
    else some x

/-- Puts `item` in the tree, in the place of the item equal to it if there
is one: `BTree.ReplaceOrInsert`. -/
def BTree.ReplaceOrInsert : BTree → memFile → BTree
  | [], item => [item]
  | x :: xs, item =>
    if x.Less item then x :: BTree.ReplaceOrInsert xs item
    else if item.Less x then item :: x :: xs
    else item :: xs

/-- Removes the item equal to `key`, if there is one: `BTree.Delete`. -/
def BTree.Delete : BTree → memFile → BTree
  | [], _ => []
  | x :: xs, key =>
    if x.Less key then x :: BTree.Delete xs key
    else if key.Less x then x :: xs
    else xs

/-- Calls `iterator` on the items in ascending order until it returns
`false`: `BTree.Ascend`.  The state `σ` is what the Go closure captures. -/
def BTree.Ascend {σ : Type} (iterator : σ → memFile → σ × Bool) : BTree → σ → σ
  | [], s => s
  | x :: xs, s =>
    if (iterator s x).2 then BTree.Ascend iterator xs (iterator s x).1
    else (iterator s x).1

/-- The invariant of the index: names strictly ascending. -/
def BTree.Ordered (t : BTree) : Prop :=
  (t.map (fun f => f.meta.Name)).Pairwise (fun a b => a < b)

/-- A bucket: `memBucket`. -/
structure memBucket where
  created : Time
  files : BTree
deriving DecidableEq, Repr

/-- The store: `memstore`, a map from bucket names to buckets. -/
structure memstore where
  buckets : String → Option memBucket

/-- The empty store: `NewMemStore`. -/
def NewMemStore : memstore :=
  { buckets := fun _ => none }

/-- The bucket of that name, if there is one: `memstore.getBucket`. -/
def memstore.getBucket (ms : memstore) (bucket : String) : Option memBucket :=
  ms.buckets bucket

/-- The assignment `ms.buckets[bucket] = b`. -/
def memstore.setBucket (ms : memstore) (bucket : String) (b : memBucket) : memstore :=
  { buckets := fun k => if k = bucket then some b else ms.buckets k }

/-- The statement `delete(ms.buckets, bucket)`. -/
def memstore.deleteBucket (ms : memstore) (bucket : String) : memstore :=
  { buckets := fun k => if k = bucket then none else ms.buckets k }

/-- The search key for a name: `memstore.key`. -/
def memstore.key (filename : String) : memFile :=
  { meta := { Bucket := "", Name := filename, Size := 0, Generation := 0,
              Metageneration := 0, TimeCreated := "", Updated := "", Metadata := [] },
    data := [] }

/-- The stored item of that name, if there is one: `memstore.find`. -/
def memstore.find (ms : memstore) (bucket filename : String) : Option memFile :=
  match ms.getBucket bucket with
  | some b => BTree.Get b.files (memstore.key filename)
  | none => none

/-- Makes the bucket if it is absent, with `now` the clock sample taken for
its creation time: `memstore.CreateBucket`. -/
def memstore.CreateBucket (ms : memstore) (bucket : String) (now : Time) :
    memstore × Option error :=
  match ms.buckets bucket with
  | none => (ms.setBucket bucket { created := now, files := BTree.New }, none)
  | some _ => (ms, none)

/-- The metadata of a bucket: `memstore.GetBucketMeta`. -/
def memstore.GetBucketMeta (ms : memstore) (bucket : String) :
    Option Bucket × Option error :=
  match ms.getBucket bucket with
  | some b => (some { bucketMeta bucket with Updated := b.created.rfc3339Nano }, none)
  | none => (none, none)

/-- The stored metadata and payload: `memstore.Get`.  The source returns
`&f.meta`, a pointer to the record of the stored item: the value here is what
it points to, and `MetaPtr.stored` stands for the pointer itself when a caller
passes it back to the store. -/
def memstore.Get (ms : memstore) (bucket filename : String) :
    Option Object × List Nat × Option error :=
  match ms.find bucket filename with
  | some f => (some f.meta, f.data, none)
  | none => (none, [], none)

/-- The metadata, with the identity fields set again: `memstore.GetMeta`. -/
def memstore.GetMeta (ms : memstore) (bucket filename : String) :
    Option Object × Option error :=
  match ms.find bucket filename with
  | some f => (some (initMeta f.meta bucket filename f.data.length), none)
  | none => (none, none)

/-- The record `Add` stores, which is also what it leaves in the caller's
`meta`: lines 92 to 102 of `memstore.Add`. -/
def addMeta (bucket filename : String) (contents : List Nat) (meta : Object)
    (now : Time) : Object :=
  let m1 := initMeta meta bucket filename contents.length
  let m2 := scrubMeta m1
  let m3 := { m2 with Metageneration := 1 }
  let m4 := { m3 with Updated := now.rfc3339Nano }
  let m5 := { m4 with Generation := now.unixNano }
  if m5.TimeCreated = "" then { m5 with TimeCreated := m5.Updated } else m5

/-- A full write: `memstore.Add`, when `meta` points to a record of the
caller's own (for the pointer `Get` returned, see `memstore.AddAliased`).
`tBucket` is the clock sample `CreateBucket` takes, `now` the one `Add` takes.
The result is the store, the caller's record as `Add` leaves it, and the
error. -/
def memstore.Add (ms : memstore) (bucket filename : String) (contents : List Nat)
    (meta : Object) (tBucket now : Time) : memstore × Object × Option error :=
  let ms1 := (ms.CreateBucket bucket tBucket).1
  let m := addMeta bucket filename contents meta now
  match ms1.getBucket bucket with
  | some b =>
    (ms1.setBucket bucket
      { b with files := BTree.ReplaceOrInsert b.files { meta := m, data := contents } },
     m, none)
  | none => (ms1, m, some nilDereference)

/-- The record `UpdateMeta` stores: lines 120 to 122 of `memstore.UpdateMeta`. -/
def updateMetaRecord (bucket filename : String) (meta : Object) (metagen : Int) : Object :=
  let m1 := initMeta meta bucket filename 0
  let m2 := scrubMeta m1
  { m2 with Metageneration := metagen }

/-- A metadata-only update: `memstore.UpdateMeta`, when `meta` points to a
record of the caller's own (for the pointer `Get` returned, see
`memstore.UpdateMetaAliased`). -/
def memstore.UpdateMeta (ms : memstore) (bucket filename : String) (meta : Object)
    (metagen : Int) : memstore × Object × Option error :=
  match ms.find bucket filename with
  | none => (ms, meta, some ErrNotExist)
  | some f =>
    let m := updateMetaRecord bucket filename meta metagen
    match ms.getBucket bucket with
    | some b =>
      (ms.setBucket bucket
        { b with files := BTree.ReplaceOrInsert b.files { meta := m, data := f.data } },
       m, none)
    | none => (ms, m, some nilDereference)

/-- A copy: `memstore.Copy`. -/
def memstore.Copy (ms : memstore) (srcBucket srcFile dstBucket dstFile : String)
    (tBucket now : Time) : memstore × Option Object × Option error :=
  match ms.find srcBucket srcFile with
  | none => (ms, none, none)
  | some src =>
    let meta := { src.meta with TimeCreated := "" }
    let r := ms.Add dstBucket dstFile src.data meta tBucket now
    match r.2.2 with
    | some err => (r.1, none, some err)
    | none => (r.1, (r.1.GetMeta dstBucket dstFile).1, (r.1.GetMeta dstBucket dstFile).2)

/-- Removes a bucket (empty `filename`) or one object: `memstore.Delete`. -/
def memstore.Delete (ms : memstore) (bucket filename : String) : memstore × Option error :=
  if filename = "" then (ms.deleteBucket bucket, none)
  else
    match ms.getBucket bucket with
    | some b =>
      (ms.setBucket bucket { b with files := BTree.Delete b.files (memstore.key filename) },
       none)
    | none => (ms, none)

/-- What the closure of `Walk` captures: the variable `err`, the state of the
caller's visitor, and, for the record, the names the visitor was called on. -/
structure WalkState (σ : Type) where
  err : Option error
  visitor : σ
  calls : List String

/-- The closure `Walk` passes to `Ascend`: lines 175 to 179. -/
def walkIterator {σ : Type} (cb : σ → String → σ × Option error)
    (w : WalkState σ) (mf : memFile) : WalkState σ × Bool :=
  let r := cb w.visitor mf.meta.Name
  ({ err := r.2, visitor := r.1, calls := w.calls ++ [mf.meta.Name] }, r.2.isNone)

/-- The result of `Walk`: the error it returns, and the closure's state
when it returns. -/
structure WalkResult (σ : Type) where
  ret : Option error
  final : WalkState σ

/-- An ordered traversal of a bucket: `memstore.Walk`.  The visitor `cb` takes
its own state and a name, and gives its new state and its error. -/
def memstore.Walk {σ : Type} (ms : memstore) (bucket : String)
    (cb : σ → String → σ × Option error) (st : σ) : WalkResult σ :=
  match ms.getBucket bucket with
  | some b =>
    { ret := none,
      final := BTree.Ascend (walkIterator cb) b.files { err := none, visitor := st, calls := [] } }
  | none =>
    { ret := some ErrNotExist, final := { err := none, visitor := st, calls := [] } }

/-- The names of a bucket's objects, in the order of the index. -/
def memBucket.names (b : memBucket) : List String :=
  b.files.map (fun f => f.meta.Name)

/-- The errors a visitor gives when it is called on each name of a list in
turn, without stopping. -/
def visitResults {σ : Type} (cb : σ → String → σ × Option error) :
    σ → List String → List (Option error)
  | _, [] => []
  | s, n :: ns => (cb s n).2 :: visitResults cb (cb s n).1 ns

/-- A caller's record with every field unset. -/
def emptyObject : Object :=
  { Bucket := "", Name := "", Size := 0, Generation := 0, Metageneration := 0,
    TimeCreated := "", Updated := "", Metadata := [] }

/-- The store after `Add` of "a/1", "b/2" and "a/0", in that order, to the
bucket "bkt" of an empty store. -/
def threeObjects : memstore :=
  (((NewMemStore.Add "bkt" "a/1" [1] emptyObject ⟨10, "t10"⟩ ⟨11, "t11"⟩).1.Add
    "bkt" "b/2" [2] emptyObject ⟨20, "t20"⟩ ⟨21, "t21"⟩).1.Add
    "bkt" "a/0" [0] emptyObject ⟨30, "t30"⟩ ⟨31, "t31"⟩).1

/-- The bucket "bkt" of `threeObjects`. -/
def threeObjectsBucket : memBucket :=
  { created := ⟨10, "t10"⟩,
    files := [{ meta := addMeta "bkt" "a/0" [0] emptyObject ⟨31, "t31"⟩, data := [0] },
              { meta := addMeta "bkt" "a/1" [1] emptyObject ⟨11, "t11"⟩, data := [1] },
              { meta := addMeta "bkt" "b/2" [2] emptyObject ⟨21, "t21"⟩, data := [2] }] }

/-- A visitor without state that never fails. -/
def visitorOk : Unit → String → Unit × Option error :=
  fun _ _ => ((), none)

/-- A visitor without state that fails on the name `bad`, and on no other. -/
def visitorFailingOn (bad : String) : Unit → String → Unit × Option error :=
  fun _ n => ((), if n = bad then some "visitor failed" else none)

/-- The generation stored for a key, if the key is present. -/
def memstore.generation (ms : memstore) (bucket filename : String) : Option Int :=
  (ms.find bucket filename).map (fun f => f.meta.Generation)

/-- The metageneration stored for a key, if the key is present. -/
def memstore.metageneration (ms : memstore) (bucket filename : String) : Option Int :=
  (ms.find bucket filename).map (fun f => f.meta.Metageneration)

/-- The store after one `Add` of "o" to the bucket "bkt" of an empty store,
at the clock sample 5. -/
def oneWrite : memstore :=
  (NewMemStore.Add "bkt" "o" [1] emptyObject ⟨4, "t4"⟩ ⟨5, "t5"⟩).1

/-- A write through the pointer `&f.meta` of the item `Get` finds for `key`: the
item stays where it is in the index, with the record `m`. -/
def BTree.setMeta : BTree → memFile → Object → BTree
  | [], _, _ => []
  | x :: xs, key, m =>
    if x.Less key then x :: BTree.setMeta xs key m
    else if key.Less x then x :: xs
    else { x with meta := m } :: xs

/-- A write of the record `m` through the pointer `Get(bucket, filename)`
returned. -/
def memstore.writeThrough (ms : memstore) (bucket filename : String) (m : Object) : memstore :=
  match ms.getBucket bucket with
  | some b =>
    ms.setBucket bucket { b with files := BTree.setMeta b.files (memstore.key filename) m }
  | none => ms

/-- `memstore.Add` when `meta` is the pointer `Get(aBucket, aFile)` returned:
lines 92 to 102 write the record of that stored item in place, and line 107
puts a copy of it, with `contents`, at `(bucket, filename)`.  When `Get`
returned nil, line 92 writes through a nil pointer.  (A write that changes
the name of the stored item leaves the index out of order; what the index
does from then on is not modelled.) -/
def memstore.AddAliased (ms : memstore) (bucket filename : String) (contents : List Nat)
    (aBucket aFile : String) (tBucket now : Time) : memstore × Option error :=
  let ms1 := (ms.CreateBucket bucket tBucket).1
  match ms1.find aBucket aFile with
  | none => (ms1, some nilDereference)
  | some a =>
    let m := addMeta bucket filename contents a.meta now
    let ms2 := ms1.writeThrough aBucket aFile m
    match ms2.getBucket bucket with
    | some b =>
      (ms2.setBucket bucket
        { b with files := BTree.ReplaceOrInsert b.files { meta := m, data := contents } },
       none)
    | none => (ms2, some nilDereference)

/-- `memstore.UpdateMeta` when `meta` is the pointer `Get(aBucket, aFile)`
returned: lines 120 to 122 write the record of that stored item in place, and
line 127 puts a copy of it, with the payload found at line 115, at
`(bucket, filename)`. -/
def memstore.UpdateMetaAliased (ms : memstore) (bucket filename : String)
    (aBucket aFile : String) (metagen : Int) : memstore × Option error :=
  match ms.find bucket filename with
  | none => (ms, some ErrNotExist)
  | some f =>
    match ms.find aBucket aFile with
    | none => (ms, some nilDereference)
    | some a =>
      let m := updateMetaRecord bucket filename a.meta metagen
      let ms1 := ms.writeThrough aBucket aFile m
      match ms1.getBucket bucket with
      | some b =>
        (ms1.setBucket bucket
          { b with files := BTree.ReplaceOrInsert b.files { meta := m, data := f.data } },
         none)
      | none => (ms1, some nilDereference)

/-- The `*storage.Object` a caller passes to `Add` or `UpdateMeta`: a pointer to
a record of its own, or the pointer `Get(bucket, filename)` returned. -/
inductive MetaPtr where
  | own (meta : Object)
  | stored (bucket filename : String)

/-- The store and the error `memstore.Add` gives, for either kind of pointer. -/
def memstore.AddPtr (ms : memstore) (bucket filename : String) (contents : List Nat)
    (meta : MetaPtr) (tBucket now : Time) : memstore × Option error :=
  match meta with
  | MetaPtr.own m =>
    ((ms.Add bucket filename contents m tBucket now).1,
     (ms.Add bucket filename contents m tBucket now).2.2)
  | MetaPtr.stored aBucket aFile =>
    ms.AddAliased bucket filename contents aBucket aFile tBucket now

/-- The store and the error `memstore.UpdateMeta` gives, for either kind of
pointer. -/
def memstore.UpdateMetaPtr (ms : memstore) (bucket filename : String) (meta : MetaPtr)
    (metagen : Int) : memstore × Option error :=
  match meta with
  | MetaPtr.own m =>
    ((ms.UpdateMeta bucket filename m metagen).1, (ms.UpdateMeta bucket filename m metagen).2.2)
  | MetaPtr.stored aBucket aFile => ms.UpdateMetaAliased bucket filename aBucket aFile metagen

/-- The invariant of the store: the index of every bucket is ordered. -/
def memstore.Ordered (ms : memstore) : Prop :=
  ∀ (B : String) (b : memBucket), ms.getBucket B = some b → b.files.Ordered

/-- A call of one of the operations of the store that can change it, with a
record of the caller's own where the operation takes one. -/
inductive Op where
  | createBucket (bucket : String) (now : Time)
  | add (bucket filename : String) (contents : List Nat) (meta : Object) (tBucket now : Time)
  | updateMeta (bucket filename : String) (meta : Object) (metagen : Int)
  | copy (srcBucket srcFile dstBucket dstFile : String) (tBucket now : Time)
  | delete (bucket filename : String)

/-- The store after a call. -/
def memstore.apply (ms : memstore) : Op → memstore
  | .createBucket bucket now => (ms.CreateBucket bucket now).1
  | .add bucket filename contents meta tBucket now =>
    (ms.Add bucket filename contents meta tBucket now).1
  | .updateMeta bucket filename meta metagen => (ms.UpdateMeta bucket filename meta metagen).1
  | .copy srcBucket srcFile dstBucket dstFile tBucket now =>
    (ms.Copy srcBucket srcFile dstBucket dstFile tBucket now).1
  | .delete bucket filename => (ms.Delete bucket filename).1

/-- The store after a sequence of calls, first call first. -/
def memstore.run (ms : memstore) : List Op → memstore
  | [] => ms
  | op :: ops => (ms.apply op).run ops

/-- The store after one `Add` of an object with the empty name to the bucket
"bkt" of an empty store. -/
def emptyNameWrite : memstore :=
  (NewMemStore.Add "bkt" "" [1] emptyObject ⟨4, "t4"⟩ ⟨5, "t5"⟩).1

/-- Whether a call writes or removes the key `(B,O)`: an `Add` or `UpdateMeta` of
the key, a `Copy` to it, a `Delete` of it or of its whole bucket. -/
def Op.targets (B O : String) : Op → Bool
  | .createBucket _ _ => false
  | .add bucket filename _ _ _ _ => bucket == B && filename == O
  | .updateMeta bucket filename _ _ => bucket == B && filename == O
  | .copy _ _ dstBucket dstFile _ _ => dstBucket == B && dstFile == O
  | .delete bucket filename => bucket == B && (filename == O || filename == "")

/-- The creation timestamp stored for a key, if the key is present. -/
def memstore.timeCreated (ms : memstore) (bucket filename : String) : Option String :=
  (ms.find bucket filename).map (fun f => f.meta.TimeCreated)

/-- The store after `Add` of "o" to the bucket "bkt" of an empty store, and then
`UpdateMeta` of "o" with the target metageneration 7. -/
def updatedWrite : memstore :=
  NewMemStore.run
    [Op.add "bkt" "o" [1] emptyObject ⟨4, "t4"⟩ ⟨5, "t5"⟩,
     Op.updateMeta "bkt" "o" emptyObject 7]

/-- A caller's record whose identity fields are wrong. -/
def wrongIdentity : Object :=
  { Bucket := "elsewhere", Name := "another", Size := 99, Generation := 0, Metageneration := 0,
    TimeCreated := "", Updated := "", Metadata := [] }

/-- A caller's record that sets a creation timestamp, a metageneration and a
pair of its own. -/
def stampedObject : Object :=
  { Bucket := "", Name := "", Size := 0, Generation := 0, Metageneration := 9,
    TimeCreated := "c0", Updated := "", Metadata := [("k", "v")] }

/-- The store after `Add` and then `UpdateMeta` of "o" in the bucket "bkt", both
with a caller's record whose identity fields are wrong. -/
def wrongIdentityWrites : memstore :=
  NewMemStore.run
    [Op.add "bkt" "o" [1, 2, 3] wrongIdentity ⟨4, "t4"⟩ ⟨5, "t5"⟩,
     Op.updateMeta "bkt" "o" wrongIdentity 7]

/-- What one operation does to the directory of buckets, step by step: a call
on the mutex `ms.mu`, or an access to the map `ms.buckets`. -/
inductive DirEvent where
  | Lock
  | Unlock
  | RLock
  | RUnlock
  | mapRead
  | mapWrite
deriving DecidableEq, Repr

/-- The state of the mutex `ms.mu`, as one operation sees it. -/
inductive LockMode where
  | free
  | shared
  | exclusive
deriving DecidableEq, Repr

/-- The directory events of `memstore.getBucket` (lines 32 to 36): the read of
the map is between `RLock` and the deferred `RUnlock`. -/
def getBucketEvents : List DirEvent :=
  [DirEvent.RLock, DirEvent.mapRead, DirEvent.RUnlock]

/-- The directory events of `memstore.CreateBucket` (lines 50 to 60): the read
of the map, and the write when the bucket is absent, are between `Lock` and
the deferred `Unlock`. -/
def memstore.CreateBucketEvents (ms : memstore) (bucket : String) : List DirEvent :=
  match ms.buckets bucket with
  | none => [DirEvent.Lock, DirEvent.mapRead, DirEvent.mapWrite, DirEvent.Unlock]
  | some _ => [DirEvent.Lock, DirEvent.mapRead, DirEvent.Unlock]

/-- The directory events of `memstore.Delete` (lines 152 to 164): with an empty
name, the statement `delete(ms.buckets, bucket)` alone; otherwise the events
of `getBucket`. -/
def memstore.DeleteEvents (_bucket filename : String) : List DirEvent :=
  if filename = "" then [DirEvent.mapWrite] else getBucketEvents

/-- Whether every access to the map, in a sequence of events that starts in the
given state of the mutex, is made while the mutex is held: a read under `RLock`
or `Lock`, a write under `Lock`. -/
def lockHeldAtAccesses : LockMode → List DirEvent → Bool
  | _, [] => true
  | _, DirEvent.Lock :: es => lockHeldAtAccesses LockMode.exclusive es
  | _, DirEvent.RLock :: es => lockHeldAtAccesses LockMode.shared es
  | _, DirEvent.Unlock :: es => lockHeldAtAccesses LockMode.free es
  | _, DirEvent.RUnlock :: es => lockHeldAtAccesses LockMode.free es
  | mode, DirEvent.mapRead :: es => decide (mode ≠ LockMode.free) && lockHeldAtAccesses mode es
  | mode, DirEvent.mapWrite :: es =>
    decide (mode = LockMode.exclusive) && lockHeldAtAccesses mode es

/-- The store after `Copy` of the key "o" of `oneWrite` to the key "o" of the
bucket "dst", at the clock sample 9. -/
def copiedWrite : memstore :=
  (oneWrite.Copy "bkt" "o" "dst" "o" ⟨8, "t8"⟩ ⟨9, "t9"⟩).1

/-! ## The index -/

theorem memFile.Less_eq (a b : memFile) :
    a.Less b = decide (a.meta.Name < b.meta.Name) := rfl

theorem memstore.key_name (O : String) : (memstore.key O).meta.Name = O := rfl

theorem memFile.Less_key (a : memFile) (O : String) :
    a.Less (memstore.key O) = decide (a.meta.Name < O) := rfl

theorem memFile.key_Less (a : memFile) (O : String) :
    (memstore.key O).Less a = decide (O < a.meta.Name) := rfl

/-- Looking up the name of an item that was just put in the tree finds that item. -/
theorem BTree.Get_ReplaceOrInsert_self (t : BTree) (item : memFile) :
    BTree.Get (BTree.ReplaceOrInsert t item) (memstore.key item.meta.Name) = some item := by
  have hirr : ¬ item.meta.Name < item.meta.Name := lt_irrefl _
  induction t with
  | nil =>
    simp only [BTree.ReplaceOrInsert, BTree.Get, memFile.Less_eq, memstore.key_name, hirr,
      decide_False, Bool.false_eq_true, if_false]
  | cons x xs ih =>
    by_cases h1 : x.meta.Name < item.meta.Name
    · simp only [BTree.ReplaceOrInsert, BTree.Get, memFile.Less_eq, memstore.key_name, h1,
        decide_True, if_true]
      exact ih
    · by_cases h2 : item.meta.Name < x.meta.Name
      · simp only [BTree.ReplaceOrInsert, BTree.Get, memFile.Less_eq, memstore.key_name,
          h1, h2, hirr, decide_True, decide_False, Bool.false_eq_true, if_true, if_false]
      · simp only [BTree.ReplaceOrInsert, BTree.Get, memFile.Less_eq, memstore.key_name,
          h1, h2, hirr, decide_False, Bool.false_eq_true, if_false]

/-- Removing a name that the tree does not hold leaves the tree as it is. -/
theorem BTree.Delete_of_Get_none (t : BTree) (O : String)
    (h : BTree.Get t (memstore.key O) = none) : BTree.Delete t (memstore.key O) = t := by
  induction t with
  | nil => rfl
  | cons x xs ih =>
    by_cases h1 : x.meta.Name < O
    · simp [BTree.Get, memFile.Less_key, h1] at h
      simp [BTree.Delete, memFile.Less_key, h1, ih h]
    · by_cases h2 : O < x.meta.Name
      · simp [BTree.Delete, memFile.Less_key, memFile.key_Less, h1, h2]
      · simp [BTree.Get, memFile.Less_key, memFile.key_Less, h1, h2] at h

/-- An item the tree gives for a name carries that name. -/
theorem BTree.Get_name (t : BTree) (O : String) (f : memFile)
    (h : BTree.Get t (memstore.key O) = some f) : f.meta.Name = O := by
  induction t with
  | nil => simp [BTree.Get] at h
  | cons x xs ih =>
    by_cases h1 : x.meta.Name < O
    · simp [BTree.Get, memFile.Less_key, h1] at h
      exact ih h
    · by_cases h2 : O < x.meta.Name
      · simp [BTree.Get, memFile.Less_key, memFile.key_Less, h1, h2] at h
      · simp [BTree.Get, memFile.Less_key, memFile.key_Less, h1, h2] at h
        subst h
        exact le_antisymm (not_lt.mp h2) (not_lt.mp h1)

/-- An item the tree gives is one of its items. -/
theorem BTree.Get_mem (t : BTree) (k f : memFile) (h : BTree.Get t k = some f) : f ∈ t := by
  induction t with
  | nil => simp [BTree.Get] at h
  | cons x xs ih =>
    unfold BTree.Get at h
    split at h
    · exact List.mem_cons_of_mem _ (ih h)
    · split at h
      · cases h
      · cases h
        exact List.mem_cons_self _ _

/-- In an ordered tree, a name is found exactly when an item carries it. -/
theorem BTree.Get_isSome_iff (t : BTree) (hord : t.Ordered) (O : String) :
    (BTree.Get t (memstore.key O)).isSome = true ↔ O ∈ t.map (fun f => f.meta.Name) := by
  induction t with
  | nil => simp [BTree.Get]
  | cons x xs ih =>
    have hx : ∀ n ∈ xs.map (fun f => f.meta.Name), x.meta.Name < n :=
      (List.pairwise_cons.mp hord).1
    have hxs : BTree.Ordered xs := (List.pairwise_cons.mp hord).2
    by_cases h1 : x.meta.Name < O
    · simp only [BTree.Get, memFile.Less_key, h1, decide_True, if_true, List.map_cons,
        List.mem_cons]
      rw [ih hxs]
      constructor
      · exact fun h => Or.inr h
      · rintro (h | h)
        · exact absurd (h ▸ h1) (lt_irrefl _)
        · exact h
    · by_cases h2 : O < x.meta.Name
      · simp only [BTree.Get, memFile.Less_key, memFile.key_Less, h1, h2, decide_True,
          decide_False, if_true, List.map_cons, List.mem_cons]
        constructor
        · intro h; cases h
        · rintro (h | h)
          · exact absurd (h ▸ h2) (lt_irrefl _)
          · exact absurd (lt_trans h2 (hx O h)) (lt_irrefl _)
      · have : O = x.meta.Name := le_antisymm (not_lt.mp h1) (not_lt.mp h2)
        simp [BTree.Get, memFile.Less_key, memFile.key_Less, h1, h2, this]

/-- A name below every name of an ordered tree is not found in it. -/
theorem BTree.Get_none_of_lt (t : BTree) (O : String)
    (h : ∀ n ∈ t.map (fun f => f.meta.Name), O < n) : BTree.Get t (memstore.key O) = none := by
  cases t with
  | nil => rfl
  | cons x xs =>
    have hx : O < x.meta.Name := h _ (by simp)
    have hx2 : ¬ x.meta.Name < O := not_lt.mpr (le_of_lt hx)
    simp only [BTree.Get, memFile.Less_eq, memstore.key_name, hx, hx2, decide_True,
      decide_False, Bool.false_eq_true, if_true, if_false]

/-- In an ordered tree, a name that was removed is not found any more. -/
theorem BTree.Get_Delete_self (t : BTree) (hord : t.Ordered) (O : String) :
    BTree.Get (BTree.Delete t (memstore.key O)) (memstore.key O) = none := by
  induction t with
  | nil => rfl
  | cons x xs ih =>
    have hx : ∀ n ∈ xs.map (fun f => f.meta.Name), x.meta.Name < n :=
      (List.pairwise_cons.mp hord).1
    have hxs : BTree.Ordered xs := (List.pairwise_cons.mp hord).2
    by_cases h1 : x.meta.Name < O
    · simp only [BTree.Delete, BTree.Get, memFile.Less_eq, memstore.key_name, h1, decide_True,
        if_true]
      exact ih hxs
    · by_cases h2 : O < x.meta.Name
      · simp only [BTree.Delete, BTree.Get, memFile.Less_eq, memstore.key_name, h1, h2,
          decide_True, decide_False, Bool.false_eq_true, if_true, if_false]
      · simp only [BTree.Delete, memFile.Less_eq, memstore.key_name, h1, h2, decide_False,
          Bool.false_eq_true, if_false]
        have heq : O = x.meta.Name := le_antisymm (not_lt.mp h1) (not_lt.mp h2)
        exact BTree.Get_none_of_lt xs O (fun n hn => heq ▸ hx n hn)

/-- The names after `ReplaceOrInsert` are the item's name and names that were there. -/
theorem BTree.mem_names_ReplaceOrInsert (t : BTree) (item : memFile) (n : String)
    (h : n ∈ (BTree.ReplaceOrInsert t item).map (fun f => f.meta.Name)) :
    n = item.meta.Name ∨ n ∈ t.map (fun f => f.meta.Name) := by
  induction t with
  | nil => simpa [BTree.ReplaceOrInsert] using h
  | cons x xs ih =>
    unfold BTree.ReplaceOrInsert at h
    split at h
    · simp only [List.map_cons, List.mem_cons] at h ⊢
      rcases h with h | h
      · exact Or.inr (Or.inl h)
      · rcases ih h with h | h
        · exact Or.inl h
        · exact Or.inr (Or.inr h)
    · split at h
      · simp only [List.map_cons, List.mem_cons] at h ⊢
        exact h
      · simp only [List.map_cons, List.mem_cons] at h ⊢
        rcases h with h | h
        · exact Or.inl h
        · exact Or.inr (Or.inr h)

/-- The invariant of the index is kept by `ReplaceOrInsert`. -/
theorem BTree.Ordered_ReplaceOrInsert (t : BTree) (hord : t.Ordered) (item : memFile) :
    (BTree.ReplaceOrInsert t item).Ordered := by
  induction t with
  | nil => simp [BTree.ReplaceOrInsert, BTree.Ordered]
  | cons x xs ih =>
    have hx : ∀ n ∈ xs.map (fun f => f.meta.Name), x.meta.Name < n :=
      (List.pairwise_cons.mp hord).1
    have hxs : BTree.Ordered xs := (List.pairwise_cons.mp hord).2
    by_cases h1 : x.meta.Name < item.meta.Name
    · simp only [BTree.ReplaceOrInsert, memFile.Less_eq, h1, decide_True, if_true]
      refine List.pairwise_cons.mpr ⟨fun n hn => ?_, ih hxs⟩
      rcases BTree.mem_names_ReplaceOrInsert xs item n hn with h | h
      · exact h ▸ h1
      · exact hx n h
    · by_cases h2 : item.meta.Name < x.meta.Name
      · simp only [BTree.ReplaceOrInsert, memFile.Less_eq, h1, h2, decide_True, decide_False,
          Bool.false_eq_true, if_true, if_false]
        refine List.pairwise_cons.mpr ⟨fun n hn => ?_, hord⟩
        simp only [List.map_cons, List.mem_cons] at hn
        rcases hn with h | h
        · exact h ▸ h2
        · exact lt_trans h2 (hx n h)
      · simp only [BTree.ReplaceOrInsert, memFile.Less_eq, h1, h2, decide_False,
          Bool.false_eq_true, if_false]
        have heq : item.meta.Name = x.meta.Name := le_antisymm (not_lt.mp h1) (not_lt.mp h2)
        refine List.pairwise_cons.mpr ⟨fun n hn => ?_, hxs⟩
        show item.meta.Name < n
        rw [heq]
        exact hx n hn

/-- What is left by `Delete` was there, in the same order. -/
theorem BTree.Delete_sublist (t : BTree) (k : memFile) : (BTree.Delete t k).Sublist t := by
  induction t with
  | nil => exact List.Sublist.refl _
  | cons x xs ih =>
    unfold BTree.Delete
    split
    · exact ih.cons₂ x
    · split
      · exact List.Sublist.refl _
      · exact List.sublist_cons_self x xs

/-- The invariant of the index is kept by `Delete`. -/
theorem BTree.Ordered_Delete (t : BTree) (hord : t.Ordered) (k : memFile) :
    (BTree.Delete t k).Ordered :=
  List.Pairwise.sublist ((BTree.Delete_sublist t k).map _) hord

/-! ## The bucket map -/

theorem memstore.ext_buckets (a b : memstore) (h : ∀ k, a.buckets k = b.buckets k) : a = b := by
  cases a
  cases b
  congr
  exact funext h

theorem memstore.getBucket_setBucket_self (ms : memstore) (B : String) (b : memBucket) :
    (ms.setBucket B b).getBucket B = some b := by
  simp [memstore.getBucket, memstore.setBucket]

theorem memstore.getBucket_setBucket_other (ms : memstore) (B B2 : String) (b : memBucket)
    (h : B2 ≠ B) : (ms.setBucket B b).getBucket B2 = ms.getBucket B2 := by
  simp [memstore.getBucket, memstore.setBucket, h]

theorem memstore.getBucket_deleteBucket_self (ms : memstore) (B : String) :
    (ms.deleteBucket B).getBucket B = none := by
  simp [memstore.getBucket, memstore.deleteBucket]

/-- Writing back the bucket that is already there changes nothing. -/
theorem memstore.setBucket_same (ms : memstore) (B : String) (b : memBucket)
    (h : ms.getBucket B = some b) : ms.setBucket B b = ms := by
  apply memstore.ext_buckets
  intro k
  by_cases hk : k = B
  · subst hk
    simpa [memstore.setBucket] using h.symm
  · simp [memstore.setBucket, hk]

/-- Removing a bucket that is not there changes nothing. -/
theorem memstore.deleteBucket_absent (ms : memstore) (B : String)
    (h : ms.getBucket B = none) : ms.deleteBucket B = ms := by
  apply memstore.ext_buckets
  intro k
  by_cases hk : k = B
  · subst hk
    simpa [memstore.deleteBucket] using h.symm
  · simp [memstore.deleteBucket, hk]

/-- After `CreateBucket` the bucket is there: the old one, or a new empty one. -/
theorem memstore.getBucket_CreateBucket (ms : memstore) (B : String) (t : Time) :
    (ms.CreateBucket B t).1.getBucket B =
      some ((ms.getBucket B).getD { created := t, files := BTree.New }) := by
  unfold memstore.CreateBucket
  cases h : ms.buckets B with
  | none => simp [memstore.getBucket, memstore.setBucket, h]
  | some b => simp [memstore.getBucket, h]

/-- What `Add` gives, with the bucket it writes to made explicit. -/
theorem memstore.Add_eq (ms : memstore) (B O : String) (P : List Nat) (m : Object)
    (tBucket now : Time) :
    ms.Add B O P m tBucket now =
      ((ms.CreateBucket B tBucket).1.setBucket B
        { (ms.getBucket B).getD { created := tBucket, files := BTree.New } with
          files := BTree.ReplaceOrInsert
            ((ms.getBucket B).getD { created := tBucket, files := BTree.New }).files
            { meta := addMeta B O P m now, data := P } },
       addMeta B O P m now, none) := by
  unfold memstore.Add
  simp only [memstore.getBucket_CreateBucket]

theorem addMeta_Name (B O : String) (P : List Nat) (m : Object) (now : Time) :
    (addMeta B O P m now).Name = O := by
  unfold addMeta
  simp only [initMeta, scrubMeta]
  split <;> rfl

theorem addMeta_Size (B O : String) (P : List Nat) (m : Object) (now : Time) :
    (addMeta B O P m now).Size = P.length := by
  unfold addMeta
  simp only [initMeta, scrubMeta]
  split <;> rfl

theorem addMeta_Generation (B O : String) (P : List Nat) (m : Object) (now : Time) :
    (addMeta B O P m now).Generation = now.unixNano := by
  unfold addMeta
  simp only [initMeta, scrubMeta]
  split <;> rfl

/-- Right after `Add`, the key holds the record and the payload just written. -/
theorem memstore.find_Add_self (ms : memstore) (B O : String) (P : List Nat) (m : Object)
    (tBucket now : Time) :
    (ms.Add B O P m tBucket now).1.find B O =
      some { meta := addMeta B O P m now, data := P } := by
  rw [memstore.Add_eq]
  unfold memstore.find
  simp only [memstore.getBucket_setBucket_self]
  have h := BTree.Get_ReplaceOrInsert_self
    ((ms.getBucket B).getD { created := tBucket, files := BTree.New }).files
    { meta := addMeta B O P m now, data := P }
  simpa only [addMeta_Name] using h

/-! ## The traversal -/

/-- A visitor that never fails is called on every item, in the order of the index. -/
theorem BTree.Ascend_walk_all {σ : Type} (cb : σ → String → σ × Option error)
    (hok : ∀ s n, (cb s n).2 = none) (t : BTree) (w : WalkState σ) :
    (BTree.Ascend (walkIterator cb) t w).calls = w.calls ++ t.map (fun f => f.meta.Name) := by
  induction t generalizing w with
  | nil => simp [BTree.Ascend]
  | cons x xs ih =>
    simp only [BTree.Ascend, walkIterator, hok, Option.isNone_none, if_true, List.map_cons]
    rw [ih]
    simp

/-- A visitor that first fails on item number `i` (counted from 0) is called on
the items up to that one, and on no later one; its error is left in `err`. -/
theorem BTree.Ascend_walk_stop {σ : Type} (cb : σ → String → σ × Option error)
    (t : BTree) (w : WalkState σ) (i : Nat) (e : error)
    (hfail : (visitResults cb w.visitor (t.map (fun f => f.meta.Name)))[i]? = some (some e))
    (hbefore : ∀ j, j < i →
      (visitResults cb w.visitor (t.map (fun f => f.meta.Name)))[j]? = some none) :
    (BTree.Ascend (walkIterator cb) t w).calls =
        w.calls ++ (t.map (fun f => f.meta.Name)).take (i + 1) ∧
      (BTree.Ascend (walkIterator cb) t w).err = some e := by
  induction t generalizing w i with
  | nil => simp [visitResults] at hfail
  | cons x xs ih =>
    cases i with
    | zero =>
      simp only [List.map_cons, visitResults, List.getElem?_cons_zero, Option.some.injEq]
        at hfail
      simp [BTree.Ascend, walkIterator, hfail]
    | succ j =>
      have h0 := hbefore 0 (Nat.succ_pos j)
      simp only [List.map_cons, visitResults, List.getElem?_cons_zero, Option.some.injEq]
        at h0
      simp only [List.map_cons, visitResults, List.getElem?_cons_succ] at hfail
      have hb2 : ∀ k, k < j →
          (visitResults cb (cb w.visitor x.meta.Name).1
            (xs.map (fun f => f.meta.Name)))[k]? = some none := by
        intro k hk
        have := hbefore (k + 1) (Nat.succ_lt_succ hk)
        simpa only [List.map_cons, visitResults, List.getElem?_cons_succ] using this
      have := ih { err := (cb w.visitor x.meta.Name).2, visitor := (cb w.visitor x.meta.Name).1,
                   calls := w.calls ++ [x.meta.Name] } j hfail hb2
      simp only [BTree.Ascend, walkIterator, h0, Option.isNone_none, if_true, List.map_cons,
        List.take_succ_cons]
      simp only [h0] at this
      refine ⟨?_, this.2⟩
      rw [this.1]
      simp

/-- On a bucket that is there, `Walk` returns `nil`. -/
theorem memstore.Walk_of_bucket {σ : Type} (ms : memstore) (B : String) (b : memBucket)
    (hb : ms.getBucket B = some b) (cb : σ → String → σ × Option error) (st : σ) :
    ms.Walk B cb st =
      { ret := none,
        final := BTree.Ascend (walkIterator cb) b.files
          { err := none, visitor := st, calls := [] } } := by
  unfold memstore.Walk
  rw [hb]

theorem threeObjects_bucket : threeObjects.getBucket "bkt" = some threeObjectsBucket := by
  simp +decide [threeObjects, threeObjectsBucket, memstore.Add, memstore.CreateBucket, NewMemStore,
    memstore.getBucket, memstore.setBucket, BTree.ReplaceOrInsert, BTree.New, memFile.Less,
    addMeta, initMeta, scrubMeta, emptyObject, String.lt_iff_toList_lt]

theorem threeObjects_ordered : threeObjectsBucket.files.Ordered := by
  simp +decide [threeObjectsBucket, BTree.Ordered, addMeta, initMeta, scrubMeta, emptyObject,
    String.lt_iff_toList_lt]

theorem updateMetaRecord_Name (B O : String) (m : Object) (N : Int) :
    (updateMetaRecord B O m N).Name = O := rfl

theorem updateMetaRecord_Metageneration (B O : String) (m : Object) (N : Int) :
    (updateMetaRecord B O m N).Metageneration = N := rfl

/-- A key that is found lies in a bucket that is there. -/
theorem memstore.bucket_of_find (ms : memstore) (B O : String) (f : memFile)
    (hf : ms.find B O = some f) :
    ∃ b, ms.getBucket B = some b ∧ BTree.Get b.files (memstore.key O) = some f := by
  unfold memstore.find at hf
  cases hb : ms.getBucket B with
  | none => simp [hb] at hf
  | some b => exact ⟨b, rfl, by simpa [hb] using hf⟩

/-- A key is missing when its bucket is, or when the bucket's index has no such name. -/
theorem memstore.find_eq_none_iff (ms : memstore) (B O : String) :
    ms.find B O = none ↔
      ms.getBucket B = none ∨
      ∃ b, ms.getBucket B = some b ∧ BTree.Get b.files (memstore.key O) = none := by
  unfold memstore.find
  cases hb : ms.getBucket B with
  | none => simp
  | some b => simp

/-- What `UpdateMeta` gives on a key that is present. -/
theorem memstore.UpdateMeta_of_find (ms : memstore) (B O : String) (f : memFile) (b : memBucket)
    (hb : ms.getBucket B = some b) (hf : ms.find B O = some f) (m : Object) (N : Int) :
    ms.UpdateMeta B O m N =
      (ms.setBucket B
        { b with
          files := BTree.ReplaceOrInsert b.files ⟨updateMetaRecord B O m N, f.data⟩ },
       updateMetaRecord B O m N, none) := by
  unfold memstore.UpdateMeta
  simp only [hf, hb]

/-- Right after `UpdateMeta`, the key holds the new record and the old payload. -/
theorem memstore.find_UpdateMeta_self (ms : memstore) (B O : String) (f : memFile)
    (hf : ms.find B O = some f) (m : Object) (N : Int) :
    (ms.UpdateMeta B O m N).1.find B O =
      some { meta := updateMetaRecord B O m N, data := f.data } := by
  obtain ⟨b, hb, _⟩ := memstore.bucket_of_find ms B O f hf
  rw [memstore.UpdateMeta_of_find ms B O f b hb hf]
  unfold memstore.find
  simp only [memstore.getBucket_setBucket_self]
  exact BTree.Get_ReplaceOrInsert_self b.files
    { meta := updateMetaRecord B O m N, data := f.data }

theorem oneWrite_find :
    oneWrite.find "bkt" "o" =
      some { meta := addMeta "bkt" "o" [1] emptyObject ⟨5, "t5"⟩, data := [1] } :=
  memstore.find_Add_self NewMemStore "bkt" "o" [1] emptyObject ⟨4, "t4"⟩ ⟨5, "t5"⟩

theorem threeObjects_find_missing : threeObjects.find "bkt" "zz" = none := by
  unfold memstore.find
  rw [threeObjects_bucket]
  simp +decide [BTree.Get, memFile.Less, memstore.key, threeObjectsBucket, addMeta, initMeta,
    scrubMeta, emptyObject]

theorem threeObjects_other_bucket : threeObjects.getBucket "other" = none := by
  simp +decide [threeObjects, memstore.Add, memstore.CreateBucket, NewMemStore,
    memstore.getBucket, memstore.setBucket]

/-- What `Delete` of a whole bucket gives. -/
theorem memstore.Delete_bucket (ms : memstore) (B : String) :
    ms.Delete B "" = (ms.deleteBucket B, none) := by
  simp [memstore.Delete]

/-- In a bucket that is not there, no key is found. -/
theorem memstore.find_of_no_bucket (ms : memstore) (B O : String)
    (hb : ms.getBucket B = none) : ms.find B O = none := by
  unfold memstore.find
  rw [hb]

/-- The error `Delete` returns is always `nil`. -/
theorem memstore.Delete_err (ms : memstore) (B O : String) : (ms.Delete B O).2 = none := by
  unfold memstore.Delete
  split
  · rfl
  · split <;> rfl

/-- `Delete` of a key that is not found leaves the store as it is. -/
theorem memstore.Delete_of_find_none (ms : memstore) (B O : String) (hO : O ≠ "")
    (hf : ms.find B O = none) : ms.Delete B O = (ms, none) := by
  unfold memstore.Delete
  rw [if_neg hO]
  cases hb : ms.getBucket B with
  | none => rfl
  | some b =>
    have hget : BTree.Get b.files (memstore.key O) = none := by
      unfold memstore.find at hf
      simpa [hb] using hf
    simp only [BTree.Delete_of_Get_none b.files O hget]
    rw [memstore.setBucket_same ms B b hb]

/-- After `Delete` of a key in a bucket whose index is ordered, the key is not found. -/
theorem memstore.find_Delete_self (ms : memstore) (B O : String) (hO : O ≠ "")
    (hord : ∀ b, ms.getBucket B = some b → b.files.Ordered) :
    (ms.Delete B O).1.find B O = none := by
  unfold memstore.Delete
  rw [if_neg hO]
  cases hb : ms.getBucket B with
  | none => exact memstore.find_of_no_bucket ms B O hb
  | some b =>
    unfold memstore.find
    simp only [memstore.getBucket_setBucket_self]
    exact BTree.Get_Delete_self b.files (hord b hb) O

/-! ## Other keys -/

/-- Putting an item in the tree does not change what is found for another name. -/
theorem BTree.Get_ReplaceOrInsert_other (t : BTree) (item : memFile) (O2 : String)
    (h : O2 ≠ item.meta.Name) :
    BTree.Get (BTree.ReplaceOrInsert t item) (memstore.key O2) =
      BTree.Get t (memstore.key O2) := by
  induction t with
  | nil =>
    rcases lt_or_gt_of_ne h with h1 | h1
    · have h2 : ¬ item.meta.Name < O2 := not_lt.mpr (le_of_lt h1)
      simp only [BTree.ReplaceOrInsert, BTree.Get, memFile.Less_eq, memstore.key_name, h1, h2,
        decide_True, decide_False, Bool.false_eq_true, if_true, if_false]
    · simp only [BTree.ReplaceOrInsert, BTree.Get, memFile.Less_eq, memstore.key_name, h1,
        decide_True, if_true]
  | cons x xs ih =>
    by_cases hx : x.meta.Name < item.meta.Name
    · simp only [BTree.ReplaceOrInsert, BTree.Get, memFile.Less_eq, memstore.key_name, hx,
        decide_True, if_true, ih]
    · by_cases hi : item.meta.Name < x.meta.Name
      · simp only [BTree.ReplaceOrInsert, memFile.Less_eq, hx, hi, decide_True, decide_False,
          Bool.false_eq_true, if_true, if_false]
        rcases lt_or_gt_of_ne h with h1 | h1
        · have h2 : ¬ item.meta.Name < O2 := not_lt.mpr (le_of_lt h1)
          have h3 : O2 < x.meta.Name := lt_trans h1 hi
          have h4 : ¬ x.meta.Name < O2 := not_lt.mpr (le_of_lt h3)
          simp only [BTree.Get, memFile.Less_eq, memstore.key_name, h1, h2, h3, h4,
            decide_True, decide_False, Bool.false_eq_true, if_true, if_false]
        · rw [BTree.Get]
          simp only [memFile.Less_eq, memstore.key_name, h1, decide_True, if_true]
      · have heq : item.meta.Name = x.meta.Name := le_antisymm (not_lt.mp hx) (not_lt.mp hi)
        simp only [BTree.ReplaceOrInsert, memFile.Less_eq, hx, hi, decide_False,
          Bool.false_eq_true, if_false]
        simp only [BTree.Get, memFile.Less_eq, memstore.key_name, heq]
        rcases lt_or_gt_of_ne h with h1 | h1
        · rw [heq] at h1
          have h2 : ¬ x.meta.Name < O2 := not_lt.mpr (le_of_lt h1)
          simp only [h1, h2, decide_True, decide_False, Bool.false_eq_true, if_true, if_false]
        · rw [heq] at h1
          simp only [h1, decide_True, if_true]

/-- In an ordered tree, removing a name does not change what is found for another name. -/
theorem BTree.Get_Delete_other (t : BTree) (hord : t.Ordered) (O O2 : String) (h : O2 ≠ O) :
    BTree.Get (BTree.Delete t (memstore.key O)) (memstore.key O2) =
      BTree.Get t (memstore.key O2) := by
  induction t with
  | nil => rfl
  | cons x xs ih =>
    have hx : ∀ n ∈ xs.map (fun f => f.meta.Name), x.meta.Name < n :=
      (List.pairwise_cons.mp hord).1
    have hxs : BTree.Ordered xs := (List.pairwise_cons.mp hord).2
    by_cases h1 : x.meta.Name < O
    · simp only [BTree.Delete, BTree.Get, memFile.Less_eq, memstore.key_name, h1, decide_True,
        if_true, ih hxs]
    · by_cases h2 : O < x.meta.Name
      · simp only [BTree.Delete, memFile.Less_eq, memstore.key_name, h1, h2, decide_True,
          decide_False, Bool.false_eq_true, if_true, if_false]
      · have heq : x.meta.Name = O := le_antisymm (not_lt.mp h2) (not_lt.mp h1)
        simp only [BTree.Delete, memFile.Less_eq, memstore.key_name, h1, h2, decide_False,
          Bool.false_eq_true, if_false]
        rcases lt_or_gt_of_ne h with h3 | h3
        · have h4 : ¬ x.meta.Name < O2 := by rw [heq]; exact not_lt.mpr (le_of_lt h3)
          have h5 : O2 < x.meta.Name := by rw [heq]; exact h3
          simp only [BTree.Get, memFile.Less_eq, memstore.key_name, h4, h5, decide_True,
            decide_False, Bool.false_eq_true, if_true, if_false]
          exact BTree.Get_none_of_lt xs O2 (fun n hn => lt_trans h5 (hx n hn))
        · have h4 : x.meta.Name < O2 := by rw [heq]; exact h3
          simp only [BTree.Get, memFile.Less_eq, memstore.key_name, h4, decide_True, if_true]

/-- Writing a bucket does not change what is found in another bucket. -/
theorem memstore.find_setBucket_other (ms : memstore) (B B2 O2 : String) (b : memBucket)
    (h : B2 ≠ B) : (ms.setBucket B b).find B2 O2 = ms.find B2 O2 := by
  unfold memstore.find
  rw [memstore.getBucket_setBucket_other ms B B2 b h]

/-- What is found in a bucket that was just written. -/
theorem memstore.find_setBucket_self (ms : memstore) (B O2 : String) (b : memBucket) :
    (ms.setBucket B b).find B O2 = BTree.Get b.files (memstore.key O2) := by
  unfold memstore.find
  rw [memstore.getBucket_setBucket_self]

/-- `CreateBucket` does not change what is found for any key. -/
theorem memstore.find_CreateBucket (ms : memstore) (B B2 O2 : String) (t : Time) :
    (ms.CreateBucket B t).1.find B2 O2 = ms.find B2 O2 := by
  unfold memstore.CreateBucket
  cases hb : ms.buckets B with
  | some b => rfl
  | none =>
    by_cases h : B2 = B
    · subst h
      rw [memstore.find_setBucket_self]
      unfold memstore.find memstore.getBucket
      rw [hb]
      rfl
    · exact memstore.find_setBucket_other ms B B2 O2 _ h

/-- `CreateBucket` does not change another bucket. -/
theorem memstore.getBucket_CreateBucket_other (ms : memstore) (B B2 : String) (t : Time)
    (h : B2 ≠ B) : (ms.CreateBucket B t).1.getBucket B2 = ms.getBucket B2 := by
  unfold memstore.CreateBucket
  cases hb : ms.buckets B with
  | some b => rfl
  | none => exact memstore.getBucket_setBucket_other ms B B2 _ h

/-- What is found for a key, read in the bucket `Add` writes to. -/
theorem memstore.find_eq_getD (ms : memstore) (B O2 : String) (t : Time) :
    ms.find B O2 =
      BTree.Get ((ms.getBucket B).getD { created := t, files := BTree.New }).files
        (memstore.key O2) := by
  unfold memstore.find
  cases ms.getBucket B with
  | none => rfl
  | some b => rfl

/-- `Add` does not change what is found for another key. -/
theorem memstore.find_Add_other (ms : memstore) (B O B2 O2 : String) (P : List Nat)
    (m : Object) (tBucket now : Time) (hne : ¬ (B2 = B ∧ O2 = O)) :
    (ms.Add B O P m tBucket now).1.find B2 O2 = ms.find B2 O2 := by
  rw [memstore.Add_eq]
  by_cases hB : B2 = B
  · subst hB
    have hO : O2 ≠ O := fun h => hne ⟨rfl, h⟩
    rw [memstore.find_setBucket_self, memstore.find_eq_getD ms B2 O2 tBucket]
    apply BTree.Get_ReplaceOrInsert_other
    rw [addMeta_Name]
    exact hO
  · show ((ms.CreateBucket B tBucket).1.setBucket B _).find B2 O2 = ms.find B2 O2
    rw [memstore.find_setBucket_other _ B B2 O2 _ hB, memstore.find_CreateBucket]

/-- `Add` does not change another bucket. -/
theorem memstore.getBucket_Add_other (ms : memstore) (B O B2 : String) (P : List Nat)
    (m : Object) (tBucket now : Time) (hB : B2 ≠ B) :
    (ms.Add B O P m tBucket now).1.getBucket B2 = ms.getBucket B2 := by
  rw [memstore.Add_eq]
  show ((ms.CreateBucket B tBucket).1.setBucket B _).getBucket B2 = ms.getBucket B2
  rw [memstore.getBucket_setBucket_other _ B B2 _ hB,
    memstore.getBucket_CreateBucket_other ms B B2 tBucket hB]

/-- `UpdateMeta` does not change what is found for another key. -/
theorem memstore.find_UpdateMeta_other (ms : memstore) (B O B2 O2 : String) (m : Object)
    (N : Int) (hne : ¬ (B2 = B ∧ O2 = O)) :
    (ms.UpdateMeta B O m N).1.find B2 O2 = ms.find B2 O2 := by
  cases hf : ms.find B O with
  | none =>
    unfold memstore.UpdateMeta
    rw [hf]
  | some f =>
    obtain ⟨b, hb, _⟩ := memstore.bucket_of_find ms B O f hf
    rw [memstore.UpdateMeta_of_find ms B O f b hb hf]
    by_cases hB : B2 = B
    · subst hB
      have hO : O2 ≠ O := fun h => hne ⟨rfl, h⟩
      rw [memstore.find_setBucket_self]
      have hfind : ms.find B2 O2 = BTree.Get b.files (memstore.key O2) := by
        unfold memstore.find
        rw [hb]
      rw [hfind]
      exact BTree.Get_ReplaceOrInsert_other b.files _ O2 hO
    · exact memstore.find_setBucket_other ms B B2 O2 _ hB

/-- `UpdateMeta` does not change another bucket. -/
theorem memstore.getBucket_UpdateMeta_other (ms : memstore) (B O B2 : String) (m : Object)
    (N : Int) (hB : B2 ≠ B) :
    (ms.UpdateMeta B O m N).1.getBucket B2 = ms.getBucket B2 := by
  cases hf : ms.find B O with
  | none =>
    unfold memstore.UpdateMeta
    rw [hf]
  | some f =>
    obtain ⟨b, hb, _⟩ := memstore.bucket_of_find ms B O f hf
    rw [memstore.UpdateMeta_of_find ms B O f b hb hf]
    exact memstore.getBucket_setBucket_other ms B B2 _ hB

/-- `Delete` of one object, in a bucket whose index is ordered, does not change
what is found for another key. -/
theorem memstore.find_Delete_other (ms : memstore) (B O B2 O2 : String) (hO : O ≠ "")
    (hord : ∀ b, ms.getBucket B = some b → b.files.Ordered)
    (hne : ¬ (B2 = B ∧ O2 = O)) :
    (ms.Delete B O).1.find B2 O2 = ms.find B2 O2 := by
  unfold memstore.Delete
  rw [if_neg hO]
  cases hb : ms.getBucket B with
  | none => rfl
  | some b =>
    by_cases hB : B2 = B
    · subst hB
      have hO2 : O2 ≠ O := fun h => hne ⟨rfl, h⟩
      show (ms.setBucket B2 _).find B2 O2 = ms.find B2 O2
      rw [memstore.find_setBucket_self]
      have hfind : ms.find B2 O2 = BTree.Get b.files (memstore.key O2) := by
        unfold memstore.find
        rw [hb]
      rw [hfind]
      exact BTree.Get_Delete_other b.files (hord b hb) O O2 hO2
    · exact memstore.find_setBucket_other ms B B2 O2 _ hB

/-- `Delete` of one object does not change another bucket. -/
theorem memstore.getBucket_Delete_other (ms : memstore) (B O B2 : String) (hO : O ≠ "")
    (hB : B2 ≠ B) : (ms.Delete B O).1.getBucket B2 = ms.getBucket B2 := by
  unfold memstore.Delete
  rw [if_neg hO]
  cases hb : ms.getBucket B with
  | none => rfl
  | some b => exact memstore.getBucket_setBucket_other ms B B2 _ hB

/-- `Get` is determined by what `find` finds. -/
theorem memstore.Get_congr (ms1 ms2 : memstore) (B1 O1 B2 O2 : String)
    (h : ms1.find B1 O1 = ms2.find B2 O2) : ms1.Get B1 O1 = ms2.Get B2 O2 := by
  unfold memstore.Get
  rw [h]

/-! ## The invariant of the store -/

theorem NewMemStore_keeps_order : NewMemStore.Ordered := by
  intro B b hb
  simp [NewMemStore, memstore.getBucket] at hb

theorem memstore.setBucket_keeps_order (ms : memstore) (h : ms.Ordered) (B : String)
    (b : memBucket) (hb : b.files.Ordered) : (ms.setBucket B b).Ordered := by
  intro B2 b2 h2
  by_cases hB : B2 = B
  · subst hB
    rw [memstore.getBucket_setBucket_self] at h2
    cases h2
    exact hb
  · rw [memstore.getBucket_setBucket_other ms B B2 b hB] at h2
    exact h B2 b2 h2

theorem memstore.deleteBucket_keeps_order (ms : memstore) (h : ms.Ordered) (B : String) :
    (ms.deleteBucket B).Ordered := by
  intro B2 b2 h2
  by_cases hB : B2 = B
  · subst hB
    rw [memstore.getBucket_deleteBucket_self] at h2
    cases h2
  · have : (ms.deleteBucket B).getBucket B2 = ms.getBucket B2 := by
      simp [memstore.getBucket, memstore.deleteBucket, hB]
    rw [this] at h2
    exact h B2 b2 h2

theorem memstore.CreateBucket_keeps_order (ms : memstore) (h : ms.Ordered) (B : String)
    (t : Time) : (ms.CreateBucket B t).1.Ordered := by
  unfold memstore.CreateBucket
  cases hb : ms.buckets B with
  | some b => exact h
  | none =>
    exact memstore.setBucket_keeps_order ms h B _ (by simp [BTree.Ordered, BTree.New])

theorem memstore.Add_keeps_order (ms : memstore) (h : ms.Ordered) (B O : String) (P : List Nat)
    (m : Object) (tBucket now : Time) : (ms.Add B O P m tBucket now).1.Ordered := by
  rw [memstore.Add_eq]
  apply memstore.setBucket_keeps_order _ (memstore.CreateBucket_keeps_order ms h B tBucket)
  apply BTree.Ordered_ReplaceOrInsert
  cases hb : ms.getBucket B with
  | none => simp [BTree.Ordered, BTree.New]
  | some b => exact h B b hb

theorem memstore.UpdateMeta_keeps_order (ms : memstore) (h : ms.Ordered) (B O : String)
    (m : Object) (N : Int) : (ms.UpdateMeta B O m N).1.Ordered := by
  cases hf : ms.find B O with
  | none =>
    unfold memstore.UpdateMeta
    rw [hf]
    exact h
  | some f =>
    obtain ⟨b, hb, _⟩ := memstore.bucket_of_find ms B O f hf
    rw [memstore.UpdateMeta_of_find ms B O f b hb hf]
    exact memstore.setBucket_keeps_order ms h B _ (BTree.Ordered_ReplaceOrInsert b.files (h B b hb) _)

theorem memstore.Delete_keeps_order (ms : memstore) (h : ms.Ordered) (B O : String) :
    (ms.Delete B O).1.Ordered := by
  unfold memstore.Delete
  split
  · exact memstore.deleteBucket_keeps_order ms h B
  · cases hb : ms.getBucket B with
    | none => exact h
    | some b =>
      exact memstore.setBucket_keeps_order ms h B _ (BTree.Ordered_Delete b.files (h B b hb) _)

theorem memstore.Copy_keeps_order (ms : memstore) (h : ms.Ordered) (B O B2 O2 : String)
    (tBucket now : Time) : (ms.Copy B O B2 O2 tBucket now).1.Ordered := by
  unfold memstore.Copy
  cases hf : ms.find B O with
  | none => exact h
  | some f =>
    simp only
    split
    · exact memstore.Add_keeps_order ms h _ _ _ _ _ _
    · exact memstore.Add_keeps_order ms h _ _ _ _ _ _

theorem memstore.apply_keeps_order (ms : memstore) (h : ms.Ordered) (op : Op) :
    (ms.apply op).Ordered := by
  cases op with
  | createBucket bucket now => exact memstore.CreateBucket_keeps_order ms h bucket now
  | add bucket filename contents meta tBucket now =>
    exact memstore.Add_keeps_order ms h bucket filename contents meta tBucket now
  | updateMeta bucket filename meta metagen =>
    exact memstore.UpdateMeta_keeps_order ms h bucket filename meta metagen
  | copy srcBucket srcFile dstBucket dstFile tBucket now =>
    exact memstore.Copy_keeps_order ms h srcBucket srcFile dstBucket dstFile tBucket now
  | delete bucket filename => exact memstore.Delete_keeps_order ms h bucket filename

/-- Every store reached from an ordered one by calls of the operations, with
records of the caller's own, is ordered. -/
theorem memstore.run_keeps_order (ms : memstore) (h : ms.Ordered) (ops : List Op) :
    (ms.run ops).Ordered := by
  induction ops generalizing ms with
  | nil => exact h
  | cons op ops ih => exact ih (ms.apply op) (memstore.apply_keeps_order ms h op)

theorem oneWrite_keeps_order : oneWrite.Ordered :=
  memstore.Add_keeps_order NewMemStore NewMemStore_keeps_order _ _ _ _ _ _

theorem threeObjects_keeps_order : threeObjects.Ordered :=
  memstore.Add_keeps_order _ (memstore.Add_keeps_order _
    (memstore.Add_keeps_order NewMemStore NewMemStore_keeps_order _ _ _ _ _ _) _ _ _ _ _ _) _ _ _ _ _ _

/-! ## Copy -/

/-- What `Copy` gives when the source is present. -/
theorem memstore.Copy_of_find (ms : memstore) (B O : String) (f : memFile)
    (hf : ms.find B O = some f) (B2 O2 : String) (tBucket now : Time) :
    ms.Copy B O B2 O2 tBucket now =
      ((ms.Add B2 O2 f.data { f.meta with TimeCreated := "" } tBucket now).1,
       some (initMeta (addMeta B2 O2 f.data { f.meta with TimeCreated := "" } now) B2 O2
         f.data.length),
       none) := by
  unfold memstore.Copy
  rw [hf]
  simp only
  have herr : (ms.Add B2 O2 f.data { f.meta with TimeCreated := "" } tBucket now).2.2 = none := by
    rw [memstore.Add_eq]
  have hmeta : (ms.Add B2 O2 f.data { f.meta with TimeCreated := "" } tBucket now).1.GetMeta
      B2 O2 = (some (initMeta (addMeta B2 O2 f.data { f.meta with TimeCreated := "" } now)
        B2 O2 f.data.length), none) := by
    unfold memstore.GetMeta
    rw [memstore.find_Add_self]
  rw [herr, hmeta]

theorem addMeta_Metageneration (B O : String) (P : List Nat) (m : Object) (now : Time) :
    (addMeta B O P m now).Metageneration = 1 := by
  unfold addMeta
  simp only [initMeta, scrubMeta]
  split <;> rfl

theorem addMeta_Updated (B O : String) (P : List Nat) (m : Object) (now : Time) :
    (addMeta B O P m now).Updated = now.rfc3339Nano := by
  unfold addMeta
  simp only [initMeta, scrubMeta]
  split <;> rfl

theorem addMeta_TimeCreated (B O : String) (P : List Nat) (m : Object) (now : Time)
    (h : m.TimeCreated = "") : (addMeta B O P m now).TimeCreated = now.rfc3339Nano := by
  unfold addMeta
  simp [initMeta, scrubMeta, h]

theorem addMeta_TimeCreated_kept (B O : String) (P : List Nat) (m : Object) (now : Time)
    (h : m.TimeCreated ≠ "") : (addMeta B O P m now).TimeCreated = m.TimeCreated := by
  unfold addMeta
  simp [initMeta, scrubMeta, h]

theorem addMeta_Metadata (B O : String) (P : List Nat) (m : Object) (now : Time) :
    (addMeta B O P m now).Metadata = m.Metadata := by
  unfold addMeta
  simp only [initMeta, scrubMeta]
  split <;> rfl

theorem emptyNameWrite_find :
    emptyNameWrite.find "bkt" "" =
      some { meta := addMeta "bkt" "" [1] emptyObject ⟨5, "t5"⟩, data := [1] } :=
  memstore.find_Add_self NewMemStore "bkt" "" [1] emptyObject ⟨4, "t4"⟩ ⟨5, "t5"⟩

/-- Removing a bucket does not change what is found in another bucket. -/
theorem memstore.find_deleteBucket_other (ms : memstore) (B B2 O2 : String) (h : B2 ≠ B) :
    (ms.deleteBucket B).find B2 O2 = ms.find B2 O2 := by
  unfold memstore.find
  have : (ms.deleteBucket B).getBucket B2 = ms.getBucket B2 := by
    simp [memstore.getBucket, memstore.deleteBucket, h]
  rw [this]

/-- `Copy` does not change what is found for a key other than its destination. -/
theorem memstore.find_Copy_other (ms : memstore) (B0 O0 B O B2 O2 : String)
    (tBucket now : Time) (hne : ¬ (B2 = B ∧ O2 = O)) :
    (ms.Copy B0 O0 B O tBucket now).1.find B2 O2 = ms.find B2 O2 := by
  cases hf : ms.find B0 O0 with
  | none =>
    unfold memstore.Copy
    rw [hf]
  | some f =>
    rw [memstore.Copy_of_find ms B0 O0 f hf]
    exact memstore.find_Add_other ms B O B2 O2 _ _ _ _ hne

/-- A call that does not target a key leaves what is found for it as it was. -/
theorem memstore.find_apply_other (ms : memstore) (hord : ms.Ordered) (B O : String)
    (op : Op) (h : op.targets B O = false) : (ms.apply op).find B O = ms.find B O := by
  cases op with
  | createBucket bucket now => exact memstore.find_CreateBucket ms bucket B O now
  | add bucket filename contents meta tBucket now =>
    apply memstore.find_Add_other
    rintro ⟨rfl, rfl⟩
    simp [Op.targets] at h
  | updateMeta bucket filename meta metagen =>
    apply memstore.find_UpdateMeta_other
    rintro ⟨rfl, rfl⟩
    simp [Op.targets] at h
  | copy srcBucket srcFile dstBucket dstFile tBucket now =>
    apply memstore.find_Copy_other
    rintro ⟨rfl, rfl⟩
    simp [Op.targets] at h
  | delete bucket filename =>
    by_cases hF : filename = ""
    · subst hF
      have hB : B ≠ bucket := by
        rintro rfl
        simp [Op.targets] at h
      show (ms.Delete bucket "").1.find B O = ms.find B O
      rw [memstore.Delete_bucket]
      exact memstore.find_deleteBucket_other ms bucket B O hB
    · apply memstore.find_Delete_other ms bucket filename B O hF (fun b hb => hord bucket b hb)
      rintro ⟨rfl, rfl⟩
      simp [Op.targets] at h

theorem updatedWrite_eq : updatedWrite = (oneWrite.UpdateMeta "bkt" "o" emptyObject 7).1 := rfl

theorem updatedWrite_find :
    updatedWrite.find "bkt" "o" =
      some { meta := updateMetaRecord "bkt" "o" emptyObject 7, data := [1] } := by
  rw [updatedWrite_eq]
  exact memstore.find_UpdateMeta_self oneWrite "bkt" "o" _ oneWrite_find emptyObject 7

theorem wrongIdentityWrites_find :
    wrongIdentityWrites.find "bkt" "o" =
      some { meta := updateMetaRecord "bkt" "o" wrongIdentity 7, data := [1, 2, 3] } :=
  memstore.find_UpdateMeta_self _ "bkt" "o" _
    (memstore.find_Add_self NewMemStore "bkt" "o" [1, 2, 3] wrongIdentity ⟨4, "t4"⟩ ⟨5, "t5"⟩)
    wrongIdentity 7

/-! ## Writes through a pointer into the store -/

/-- After a write through the pointer of a stored item that keeps its name, the
item is found with the new record and its old payload. -/
theorem BTree.Get_setMeta_self (t : BTree) (O : String) (f : memFile)
    (h : BTree.Get t (memstore.key O) = some f) (m : Object) (hm : m.Name = O) :
    BTree.Get (BTree.setMeta t (memstore.key O) m) (memstore.key O) =
      some { f with meta := m } := by
  induction t with
  | nil => simp [BTree.Get] at h
  | cons x xs ih =>
    by_cases h1 : x.meta.Name < O
    · simp only [BTree.Get, memFile.Less_eq, memstore.key_name, h1, decide_True, if_true] at h
      simp only [BTree.setMeta, BTree.Get, memFile.Less_eq, memstore.key_name, h1, decide_True,
        if_true]
      exact ih h
    · by_cases h2 : O < x.meta.Name
      · simp [BTree.Get, memFile.Less_eq, memstore.key_name, h1, h2] at h
      · simp only [BTree.Get, memFile.Less_eq, memstore.key_name, h1, h2, decide_False,
          Bool.false_eq_true, if_false, Option.some.injEq] at h
        subst h
        have hirr : ¬ O < O := lt_irrefl _
        simp only [BTree.setMeta, BTree.Get, memFile.Less_eq, memstore.key_name, h1, h2, hm,
          hirr, decide_False, Bool.false_eq_true, if_false]

/-- `Add` of a key in the bucket `B`, given the pointer `Get` returned for a key
of the same name in another bucket: the stored item the pointer leads to is
found afterwards with the record `Add` wrote. -/
theorem memstore.find_AddAliased_alias (ms : memstore) (B aB O : String) (P : List Nat)
    (tBucket now : Time) (a : memFile) (ha : ms.find aB O = some a) (hB : aB ≠ B) :
    (ms.AddAliased B O P aB O tBucket now).1.find aB O =
      some { a with meta := addMeta B O P a.meta now } := by
  obtain ⟨b, hb, hget⟩ := memstore.bucket_of_find ms aB O a ha
  have hb1 : (ms.CreateBucket B tBucket).1.getBucket aB = some b := by
    rw [memstore.getBucket_CreateBucket_other ms B aB tBucket hB, hb]
  have ha1 : (ms.CreateBucket B tBucket).1.find aB O = some a := by
    rw [memstore.find_CreateBucket, ha]
  unfold memstore.AddAliased
  simp only [ha1]
  have hw : ((ms.CreateBucket B tBucket).1.writeThrough aB O (addMeta B O P a.meta now)) =
      (ms.CreateBucket B tBucket).1.setBucket aB
        { b with files := BTree.setMeta b.files (memstore.key O) (addMeta B O P a.meta now) } := by
    unfold memstore.writeThrough
    rw [hb1]
  rw [hw]
  have hBs : B ≠ aB := fun h => hB h.symm
  rw [memstore.getBucket_setBucket_other _ aB B _ hBs, memstore.getBucket_CreateBucket]
  simp only
  rw [memstore.find_setBucket_other _ B aB O _ hB, memstore.find_setBucket_self]
  exact BTree.Get_setMeta_self b.files O a hget _ (addMeta_Name ..)

theorem memstore.AddPtr_own (ms : memstore) (B O : String) (P : List Nat) (m : Object)
    (tBucket now : Time) :
    (ms.AddPtr B O P (MetaPtr.own m) tBucket now).1 = (ms.Add B O P m tBucket now).1 := rfl

theorem memstore.UpdateMetaPtr_own (ms : memstore) (B O : String) (m : Object) (N : Int) :
    (ms.UpdateMetaPtr B O (MetaPtr.own m) N).1 = (ms.UpdateMeta B O m N).1 := rfl

theorem copiedWrite_eq :
    copiedWrite =
      (oneWrite.Add "dst" "o" [1]
        { addMeta "bkt" "o" [1] emptyObject ⟨5, "t5"⟩ with TimeCreated := "" }
        ⟨8, "t8"⟩ ⟨9, "t9"⟩).1 := by
  unfold copiedWrite
  rw [memstore.Copy_of_find oneWrite "bkt" "o" _ oneWrite_find]

theorem copiedWrite_find :
    copiedWrite.find "dst" "o" =
      some { meta := addMeta "dst" "o" [1]
               { addMeta "bkt" "o" [1] emptyObject ⟨5, "t5"⟩ with TimeCreated := "" }
               ⟨9, "t9"⟩,
             data := [1] } := by
  rw [copiedWrite_eq]
  exact memstore.find_Add_self ..

/-! ## The claims -/

/-- C1. Round trip of `Add` and `Get`: in every store state (the bucket may be
absent), `Add(B,O,P,m)` returns no error, and a `Get(B,O)` made right after it
returns no error, the payload `P`, and metadata whose name is `O` and whose
size is the length of `P`. -/
theorem Add_Get_round_trip (ms : memstore) (B O : String) (P : List Nat) (m : Object)
    (tBucket now : Time) :
    (ms.Add B O P m tBucket now).2.2 = none ∧
    ∃ meta : Object, (ms.Add B O P m tBucket now).1.Get B O = (some meta, P, none) ∧
      meta.Name = O ∧ meta.Size = P.length := by
  refine ⟨by rw [memstore.Add_eq], addMeta B O P m now, ?_, addMeta_Name .., addMeta_Size ..⟩
  unfold memstore.Get
  rw [memstore.find_Add_self]

/-- C2. Ordered traversal: on an existing bucket whose index is ordered, with a
visitor that never fails, `Walk` calls the visitor on names in strictly
ascending order, once on each name stored in the bucket and on no other name. -/
theorem Walk_visits_each_name_ascending {σ : Type} (ms : memstore) (B : String)
    (b : memBucket) (hb : ms.getBucket B = some b) (hord : b.files.Ordered)
    (cb : σ → String → σ × Option error) (st : σ) (hok : ∀ s n, (cb s n).2 = none) :
    (ms.Walk B cb st).final.calls.Pairwise (fun x y => x < y) ∧
    ∀ O : String, (ms.Walk B cb st).final.calls.count O =
      if (ms.find B O).isSome then 1 else 0 := by
  have hcalls : (ms.Walk B cb st).final.calls = b.files.map (fun f => f.meta.Name) := by
    rw [memstore.Walk_of_bucket ms B b hb, BTree.Ascend_walk_all cb hok]
    rfl
  rw [hcalls]
  refine ⟨hord, fun O => ?_⟩
  have hnodup : (b.files.map (fun f => f.meta.Name)).Nodup :=
    List.Pairwise.imp (fun h => ne_of_lt h) hord
  have hfind : ms.find B O = BTree.Get b.files (memstore.key O) := by
    unfold memstore.find
    rw [hb]
  rw [hfind]
  by_cases hmem : O ∈ b.files.map (fun f => f.meta.Name)
  · rw [List.count_eq_one_of_mem hnodup hmem,
      if_pos ((BTree.Get_isSome_iff b.files hord O).mpr hmem)]
  · rw [List.count_eq_zero_of_not_mem hmem,
      if_neg (fun h => hmem ((BTree.Get_isSome_iff b.files hord O).mp h))]

/-- Witness of C2: the bucket filled with "a/1", "b/2" and "a/0", in that order. -/
theorem Walk_visits_each_name_ascending_witness :
    threeObjects.getBucket "bkt" = some threeObjectsBucket ∧
    threeObjectsBucket.files.Ordered ∧
    (∀ (s : Unit) (n : String), (visitorOk s n).2 = none) ∧
    (threeObjects.Walk "bkt" visitorOk ()).final.calls.Pairwise (fun x y => x < y) ∧
    ∀ O : String, (threeObjects.Walk "bkt" visitorOk ()).final.calls.count O =
      if (threeObjects.find "bkt" O).isSome then 1 else 0 :=
  ⟨threeObjects_bucket, threeObjects_ordered, fun _ _ => rfl,
    Walk_visits_each_name_ascending threeObjects "bkt" threeObjectsBucket threeObjects_bucket
      threeObjects_ordered visitorOk () (fun _ _ => rfl)⟩

/-- C3. Early stop: on an existing bucket, if the visitor first fails on entry
number `i + 1` of the bucket's names (the index `i` counts from 0), `Walk` calls
the visitor on the first `i + 1` names of the ascending sequence and on no
later one. -/
theorem Walk_stops_at_first_failure {σ : Type} (ms : memstore) (B : String)
    (b : memBucket) (hb : ms.getBucket B = some b) (hord : b.files.Ordered)
    (cb : σ → String → σ × Option error) (st : σ) (i : Nat) (e : error)
    (hfail : (visitResults cb st b.names)[i]? = some (some e))
    (hbefore : ∀ j, j < i → (visitResults cb st b.names)[j]? = some none) :
    b.names.Pairwise (fun x y => x < y) ∧
    (ms.Walk B cb st).final.calls = b.names.take (i + 1) := by
  refine ⟨hord, ?_⟩
  rw [memstore.Walk_of_bucket ms B b hb]
  have h := (BTree.Ascend_walk_stop cb b.files { err := none, visitor := st, calls := [] }
    i e hfail hbefore).1
  simpa [memBucket.names] using h

/-- Witness of C3: the visitor fails on "a/1", the second of the three names. -/
theorem Walk_stops_at_first_failure_witness :
    threeObjects.getBucket "bkt" = some threeObjectsBucket ∧
    threeObjectsBucket.files.Ordered ∧
    (visitResults (visitorFailingOn "a/1") () threeObjectsBucket.names)[1]? =
      some (some "visitor failed") ∧
    (∀ j, j < 1 →
      (visitResults (visitorFailingOn "a/1") () threeObjectsBucket.names)[j]? = some none) ∧
    threeObjectsBucket.names.Pairwise (fun x y => x < y) ∧
    (threeObjects.Walk "bkt" (visitorFailingOn "a/1") ()).final.calls =
      threeObjectsBucket.names.take (1 + 1) :=
  have hfail : (visitResults (visitorFailingOn "a/1") () threeObjectsBucket.names)[1]? =
      some (some "visitor failed") := by
    simp +decide [visitResults, visitorFailingOn, threeObjectsBucket, memBucket.names, addMeta,
      initMeta, scrubMeta, emptyObject]
  have hbefore : ∀ j, j < 1 →
      (visitResults (visitorFailingOn "a/1") () threeObjectsBucket.names)[j]? = some none := by
    intro j hj
    obtain rfl : j = 0 := by omega
    simp +decide [visitResults, visitorFailingOn, threeObjectsBucket, memBucket.names, addMeta,
      initMeta, scrubMeta, emptyObject]
  ⟨threeObjects_bucket, threeObjects_ordered, hfail, hbefore,
    Walk_stops_at_first_failure threeObjects "bkt" threeObjectsBucket threeObjects_bucket
      threeObjects_ordered (visitorFailingOn "a/1") () 1 "visitor failed" hfail hbefore⟩

/-- C4, the code at a failing input: on the bucket "bkt" holding "a/0", "a/1" and
"b/2", with a visitor that fails on "a/1", `Walk` stops after the second name
with the visitor's error in its variable `err`, and returns `nil`. -/
theorem Walk_returns_nil_on_visitor_failure :
    (threeObjects.Walk "bkt" (visitorFailingOn "a/1") ()).final.calls = ["a/0", "a/1"] ∧
    (threeObjects.Walk "bkt" (visitorFailingOn "a/1") ()).final.err = some "visitor failed" ∧
    (threeObjects.Walk "bkt" (visitorFailingOn "a/1") ()).ret = none := by
  rw [memstore.Walk_of_bucket threeObjects "bkt" threeObjectsBucket threeObjects_bucket]
  simp +decide [BTree.Ascend, walkIterator, visitorFailingOn, threeObjectsBucket, addMeta,
    initMeta, scrubMeta, emptyObject]

/-- The example of the specification: after `Add` of "a/1", "b/2", "a/0", in that
order, a traversal visits "a/0", "a/1", "b/2". -/
theorem Walk_threeObjects :
    (threeObjects.Walk "bkt" visitorOk ()).final.calls = ["a/0", "a/1", "b/2"] := by
  rw [memstore.Walk_of_bucket threeObjects "bkt" threeObjectsBucket threeObjects_bucket]
  simp +decide [BTree.Ascend, walkIterator, visitorOk, threeObjectsBucket, addMeta,
    initMeta, scrubMeta, emptyObject]

/-- C5, as stated, fails: two successive writes of one key that sample the same
clock value (here 5) store the same generation, not a greater one. -/
theorem generation_equal_on_equal_clock :
    oneWrite.generation "bkt" "o" = some 5 ∧
    (oneWrite.Add "bkt" "o" [2] emptyObject ⟨5, "t5"⟩ ⟨5, "t5"⟩).1.generation "bkt" "o"
      = some 5 ∧
    ¬ ((5 : Int) < 5) := by
  refine ⟨?_, ?_, by decide⟩
  · unfold memstore.generation
    rw [oneWrite_find, Option.map_some', addMeta_Generation]
  · unfold memstore.generation
    rw [memstore.find_Add_self, Option.map_some', addMeta_Generation]

/-- C5, amended: the generation an `Add` stores is the clock sample it takes, in
nanoseconds; so when `Add` of a key is followed by a second `Add` of that key
whose clock sample is strictly later, the generation stored after the second
is strictly greater than the one stored after the first. -/
theorem generation_increases_with_clock (ms : memstore) (B O : String)
    (P1 P2 : List Nat) (m1 m2 : Object) (tb1 t1 tb2 t2 : Time)
    (hclock : t1.unixNano < t2.unixNano) :
    ∃ g1 g2 : Int,
      (ms.Add B O P1 m1 tb1 t1).1.generation B O = some g1 ∧
      ((ms.Add B O P1 m1 tb1 t1).1.Add B O P2 m2 tb2 t2).1.generation B O = some g2 ∧
      g1 = t1.unixNano ∧ g2 = t2.unixNano ∧ g1 < g2 := by
  refine ⟨t1.unixNano, t2.unixNano, ?_, ?_, rfl, rfl, hclock⟩
  · unfold memstore.generation
    rw [memstore.find_Add_self, Option.map_some', addMeta_Generation]
  · unfold memstore.generation
    rw [memstore.find_Add_self, Option.map_some', addMeta_Generation]

/-- Witness of amended C5: clock samples 5 and 6. -/
theorem generation_increases_with_clock_witness :
    (5 : Int) < 6 ∧
    ∃ g1 g2 : Int,
      (NewMemStore.Add "bkt" "o" [1] emptyObject ⟨4, "t4"⟩ ⟨5, "t5"⟩).1.generation "bkt" "o"
        = some g1 ∧
      ((NewMemStore.Add "bkt" "o" [1] emptyObject ⟨4, "t4"⟩ ⟨5, "t5"⟩).1.Add
        "bkt" "o" [2] emptyObject ⟨6, "t6"⟩ ⟨6, "t6"⟩).1.generation "bkt" "o" = some g2 ∧
      g1 = 5 ∧ g2 = 6 ∧ g1 < g2 :=
  ⟨by decide,
    generation_increases_with_clock NewMemStore "bkt" "o" [1] [2] emptyObject emptyObject
      ⟨4, "t4"⟩ ⟨5, "t5"⟩ ⟨6, "t6"⟩ ⟨6, "t6"⟩ (by decide)⟩

/-- C6. Metageneration pass-through: on a key that is present, `UpdateMeta` with
target metageneration `N` returns no error; afterwards the metageneration stored
for the key is `N`, and `Get` returns the payload it returned before the call. -/
theorem UpdateMeta_sets_metageneration_keeps_payload (ms : memstore) (B O : String)
    (f : memFile) (hf : ms.find B O = some f) (m : Object) (N : Int) :
    (ms.UpdateMeta B O m N).2.2 = none ∧
    (ms.UpdateMeta B O m N).1.metageneration B O = some N ∧
    ∃ meta : Object,
      (ms.UpdateMeta B O m N).1.Get B O = (some meta, (ms.Get B O).2.1, none) ∧
      meta.Metageneration = N := by
  obtain ⟨b, hb, _⟩ := memstore.bucket_of_find ms B O f hf
  refine ⟨by rw [memstore.UpdateMeta_of_find ms B O f b hb hf], ?_,
    updateMetaRecord B O m N, ?_, rfl⟩
  · unfold memstore.metageneration
    rw [memstore.find_UpdateMeta_self ms B O f hf]
    rfl
  · unfold memstore.Get
    rw [memstore.find_UpdateMeta_self ms B O f hf, hf]

/-- Witness of C6: the key "o" of `oneWrite`, target metageneration 7. -/
theorem UpdateMeta_sets_metageneration_keeps_payload_witness :
    oneWrite.find "bkt" "o" =
      some { meta := addMeta "bkt" "o" [1] emptyObject ⟨5, "t5"⟩, data := [1] } ∧
    (oneWrite.UpdateMeta "bkt" "o" emptyObject 7).2.2 = none ∧
    (oneWrite.UpdateMeta "bkt" "o" emptyObject 7).1.metageneration "bkt" "o" = some 7 ∧
    ∃ meta : Object,
      (oneWrite.UpdateMeta "bkt" "o" emptyObject 7).1.Get "bkt" "o" =
        (some meta, (oneWrite.Get "bkt" "o").2.1, none) ∧
      meta.Metageneration = 7 :=
  ⟨oneWrite_find,
    UpdateMeta_sets_metageneration_keeps_payload oneWrite "bkt" "o" _ oneWrite_find
      emptyObject 7⟩

/-- C7. `UpdateMeta` on a missing key (its bucket absent, or present without that
name) returns `os.ErrNotExist` and leaves the store, and the caller's record,
as they were. -/
theorem UpdateMeta_missing_key (ms : memstore) (B O : String)
    (hf : ms.find B O = none) (m : Object) (N : Int) :
    ms.UpdateMeta B O m N = (ms, m, some ErrNotExist) := by
  unfold memstore.UpdateMeta
  rw [hf]

/-- Witness of C7: a name that the bucket "bkt" of `threeObjects` does not hold. -/
theorem UpdateMeta_missing_key_witness :
    threeObjects.find "bkt" "zz" = none ∧
    threeObjects.UpdateMeta "bkt" "zz" emptyObject 7 =
      (threeObjects, emptyObject, some ErrNotExist) :=
  ⟨threeObjects_find_missing,
    UpdateMeta_missing_key threeObjects "bkt" "zz" threeObjects_find_missing emptyObject 7⟩

/-- C8. Absence is an empty result, not an error: when the key `(B,O)` is not
present, `Get` and `GetMeta` return an empty result and no error, and `Copy`
from it returns an empty result, no error and the store as it was; when the
bucket `B3` does not exist, `GetBucketMeta` returns an empty result and no
error.  (`Get`, `GetMeta` and `GetBucketMeta` are functions of the store: they
have no new store to give.) -/
theorem absent_is_empty_result (ms : memstore) (B O B2 O2 B3 : String) (tBucket now : Time)
    (hkey : ms.find B O = none) (hbucket : ms.getBucket B3 = none) :
    ms.Get B O = (none, [], none) ∧
    ms.GetMeta B O = (none, none) ∧
    ms.Copy B O B2 O2 tBucket now = (ms, none, none) ∧
    ms.GetBucketMeta B3 = (none, none) := by
  refine ⟨?_, ?_, ?_, ?_⟩
  · unfold memstore.Get
    rw [hkey]
  · unfold memstore.GetMeta
    rw [hkey]
  · unfold memstore.Copy
    rw [hkey]
  · unfold memstore.GetBucketMeta
    rw [hbucket]

/-- Witness of C8: in `threeObjects` the bucket "bkt" has no name "zz", and there
is no bucket "other". -/
theorem absent_is_empty_result_witness :
    threeObjects.find "bkt" "zz" = none ∧
    threeObjects.getBucket "other" = none ∧
    threeObjects.Get "bkt" "zz" = (none, [], none) ∧
    threeObjects.GetMeta "bkt" "zz" = (none, none) ∧
    threeObjects.Copy "bkt" "zz" "dst" "copy" ⟨40, "t40"⟩ ⟨41, "t41"⟩
      = (threeObjects, none, none) ∧
    threeObjects.GetBucketMeta "other" = (none, none) :=
  ⟨threeObjects_find_missing, threeObjects_other_bucket,
    absent_is_empty_result threeObjects "bkt" "zz" "dst" "copy" "other" ⟨40, "t40"⟩
      ⟨41, "t41"⟩ threeObjects_find_missing threeObjects_other_bucket⟩

/-- C9. Bucket deletion cascade: after `Delete(B, "")`, which returns no error,
`GetMeta(B,O)` and `Get(B,O)` return an empty result and no error for every
name `O`, `GetBucketMeta(B)` returns an empty result, and `Walk(B, visitor)`
returns `os.ErrNotExist` without a call of the visitor. -/
theorem Delete_bucket_cascade {σ : Type} (ms : memstore) (B : String)
    (cb : σ → String → σ × Option error) (st : σ) :
    (ms.Delete B "").2 = none ∧
    (∀ O : String, (ms.Delete B "").1.GetMeta B O = (none, none) ∧
      (ms.Delete B "").1.Get B O = (none, [], none)) ∧
    (ms.Delete B "").1.GetBucketMeta B = (none, none) ∧
    ((ms.Delete B "").1.Walk B cb st).ret = some ErrNotExist ∧
    ((ms.Delete B "").1.Walk B cb st).final.calls = [] := by
  rw [memstore.Delete_bucket]
  have hb : (ms.deleteBucket B).getBucket B = none := memstore.getBucket_deleteBucket_self ms B
  refine ⟨rfl, fun O => ⟨?_, ?_⟩, ?_, ?_, ?_⟩
  · show (ms.deleteBucket B).GetMeta B O = (none, none)
    unfold memstore.GetMeta
    rw [memstore.find_of_no_bucket _ B O hb]
  · show (ms.deleteBucket B).Get B O = (none, [], none)
    unfold memstore.Get
    rw [memstore.find_of_no_bucket _ B O hb]
  · show (ms.deleteBucket B).GetBucketMeta B = (none, none)
    unfold memstore.GetBucketMeta
    rw [hb]
  · show ((ms.deleteBucket B).Walk B cb st).ret = some ErrNotExist
    unfold memstore.Walk
    rw [hb]
  · show ((ms.deleteBucket B).Walk B cb st).final.calls = []
    unfold memstore.Walk
    rw [hb]

/-- C10. Deleting something absent is a no-op: `Delete(B1,O1)` on a bucket `B1`
that does not exist (whatever `O1`), and `Delete(B2,O2)` of a non-empty name
`O2` that is not found, return no error and the store as it was; and, on a
bucket whose index is ordered, a second `Delete(B3,O3)` returns no error and
the store the first one gave. -/
theorem Delete_absent_is_noop (ms : memstore) (B1 O1 B2 O2 B3 O3 : String)
    (habsent : ms.getBucket B1 = none)
    (hname : O2 ≠ "") (hmissing : ms.find B2 O2 = none)
    (hord : ∀ b, ms.getBucket B3 = some b → b.files.Ordered) :
    ms.Delete B1 O1 = (ms, none) ∧
    ms.Delete B2 O2 = (ms, none) ∧
    (ms.Delete B3 O3).2 = none ∧
    (ms.Delete B3 O3).1.Delete B3 O3 = ((ms.Delete B3 O3).1, none) := by
  refine ⟨?_, memstore.Delete_of_find_none ms B2 O2 hname hmissing,
    memstore.Delete_err ms B3 O3, ?_⟩
  · by_cases hO : O1 = ""
    · subst hO
      rw [memstore.Delete_bucket, memstore.deleteBucket_absent ms B1 habsent]
    · exact memstore.Delete_of_find_none ms B1 O1 hO (memstore.find_of_no_bucket ms B1 O1 habsent)
  · by_cases hO : O3 = ""
    · subst hO
      rw [memstore.Delete_bucket, memstore.Delete_bucket]
      rw [memstore.deleteBucket_absent (ms.deleteBucket B3) B3
        (memstore.getBucket_deleteBucket_self ms B3)]
    · exact memstore.Delete_of_find_none _ B3 O3 hO (memstore.find_Delete_self ms B3 O3 hO hord)

/-- Witness of C10: in `threeObjects` there is no bucket "other", the bucket "bkt"
has no name "zz", and its index is ordered; the repeated `Delete` is that of
the stored name "a/1". -/
theorem Delete_absent_is_noop_witness :
    threeObjects.getBucket "other" = none ∧
    "zz" ≠ "" ∧
    threeObjects.find "bkt" "zz" = none ∧
    (∀ b, threeObjects.getBucket "bkt" = some b → b.files.Ordered) ∧
    threeObjects.Delete "other" "a/1" = (threeObjects, none) ∧
    threeObjects.Delete "bkt" "zz" = (threeObjects, none) ∧
    (threeObjects.Delete "bkt" "a/1").2 = none ∧
    (threeObjects.Delete "bkt" "a/1").1.Delete "bkt" "a/1" =
      ((threeObjects.Delete "bkt" "a/1").1, none) :=
  have hord : ∀ b, threeObjects.getBucket "bkt" = some b → b.files.Ordered := by
    intro b hb
    rw [threeObjects_bucket] at hb
    cases hb
    exact threeObjects_ordered
  ⟨threeObjects_other_bucket, by decide, threeObjects_find_missing, hord,
    Delete_absent_is_noop threeObjects "other" "a/1" "bkt" "zz" "bkt" "a/1"
      threeObjects_other_bucket (by decide) threeObjects_find_missing hord⟩

/-- C11, as stated, fails: a copy made at the clock sample at which the source
was written (here 5) has the generation of the source. -/
theorem Copy_generation_equal_on_equal_clock :
    oneWrite.generation "bkt" "o" = some 5 ∧
    (oneWrite.Copy "bkt" "o" "bkt" "c" ⟨5, "t5"⟩ ⟨5, "t5"⟩).1.generation "bkt" "c" = some 5 ∧
    (oneWrite.Copy "bkt" "o" "bkt" "c" ⟨5, "t5"⟩ ⟨5, "t5"⟩).2.1.map (fun m => m.Generation)
      = some 5 := by
  refine ⟨?_, ?_, ?_⟩
  · unfold memstore.generation
    rw [oneWrite_find, Option.map_some', addMeta_Generation]
  · rw [memstore.Copy_of_find oneWrite "bkt" "o" _ oneWrite_find]
    unfold memstore.generation
    rw [memstore.find_Add_self, Option.map_some', addMeta_Generation]
  · rw [memstore.Copy_of_find oneWrite "bkt" "o" _ oneWrite_find]
    simp [initMeta, addMeta_Generation]

/-- C11, amended: when the source `(B,O)` is present with payload `f.data`, `Copy`
returns no error and the metadata `GetMeta(B2,O2)` returns afterwards; the
destination holds the source's payload; the metadata has name `O2`, bucket
`B2`, size the length of the payload, metageneration 1, updated and creation
timestamps both the copy instant, and the source's caller metadata; its
generation is the clock sample of the copy, which differs from the source's
generation when that sample does. -/
theorem Copy_result (ms : memstore) (B O : String) (f : memFile)
    (hf : ms.find B O = some f) (B2 O2 : String) (tBucket now : Time) :
    (ms.Copy B O B2 O2 tBucket now).2.2 = none ∧
    (ms.Copy B O B2 O2 tBucket now).2.1 =
      ((ms.Copy B O B2 O2 tBucket now).1.GetMeta B2 O2).1 ∧
    ((ms.Copy B O B2 O2 tBucket now).1.Get B2 O2).2.1 = f.data ∧
    ∃ meta : Object, (ms.Copy B O B2 O2 tBucket now).2.1 = some meta ∧
      meta.Name = O2 ∧ meta.Bucket = B2 ∧ meta.Size = f.data.length ∧
      meta.Metageneration = 1 ∧
      meta.Updated = now.rfc3339Nano ∧ meta.TimeCreated = meta.Updated ∧
      meta.Metadata = f.meta.Metadata ∧
      meta.Generation = now.unixNano ∧
      (now.unixNano ≠ f.meta.Generation → meta.Generation ≠ f.meta.Generation) := by
  rw [memstore.Copy_of_find ms B O f hf]
  refine ⟨rfl, ?_, ?_, _, rfl, rfl, rfl, rfl, ?_, ?_, ?_, ?_, ?_, ?_⟩
  · show _ = ((ms.Add B2 O2 f.data _ tBucket now).1.GetMeta B2 O2).1
    unfold memstore.GetMeta
    rw [memstore.find_Add_self]
  · show ((ms.Add B2 O2 f.data _ tBucket now).1.Get B2 O2).2.1 = f.data
    unfold memstore.Get
    rw [memstore.find_Add_self]
  · exact addMeta_Metageneration ..
  · exact addMeta_Updated ..
  · show (addMeta _ _ _ _ _).TimeCreated = (addMeta _ _ _ _ _).Updated
    rw [addMeta_TimeCreated _ _ _ _ _ rfl, addMeta_Updated]
  · exact addMeta_Metadata ..
  · exact addMeta_Generation ..
  · intro hclock
    show (addMeta _ _ _ _ _).Generation ≠ _
    rw [addMeta_Generation]
    exact hclock

/-- Witness of amended C11: the key "o" of `oneWrite`, written at the clock
sample 5, copied at the clock sample 9. -/
theorem Copy_result_witness :
    oneWrite.find "bkt" "o" =
      some { meta := addMeta "bkt" "o" [1] emptyObject ⟨5, "t5"⟩, data := [1] } ∧
    (oneWrite.Copy "bkt" "o" "dst" "c" ⟨8, "t8"⟩ ⟨9, "t9"⟩).2.2 = none ∧
    (oneWrite.Copy "bkt" "o" "dst" "c" ⟨8, "t8"⟩ ⟨9, "t9"⟩).2.1 =
      ((oneWrite.Copy "bkt" "o" "dst" "c" ⟨8, "t8"⟩ ⟨9, "t9"⟩).1.GetMeta "dst" "c").1 ∧
    ((oneWrite.Copy "bkt" "o" "dst" "c" ⟨8, "t8"⟩ ⟨9, "t9"⟩).1.Get "dst" "c").2.1 = [1] ∧
    ∃ meta : Object, (oneWrite.Copy "bkt" "o" "dst" "c" ⟨8, "t8"⟩ ⟨9, "t9"⟩).2.1 = some meta ∧
      meta.Name = "c" ∧ meta.Bucket = "dst" ∧ meta.Size = 1 ∧
      meta.Metageneration = 1 ∧
      meta.Updated = "t9" ∧ meta.TimeCreated = meta.Updated ∧
      meta.Metadata = [] ∧
      meta.Generation = 9 ∧
      ((9 : Int) ≠ (addMeta "bkt" "o" [1] emptyObject ⟨5, "t5"⟩).Generation →
        meta.Generation ≠ (addMeta "bkt" "o" [1] emptyObject ⟨5, "t5"⟩).Generation) :=
  ⟨oneWrite_find,
    Copy_result oneWrite "bkt" "o" _ oneWrite_find "dst" "c" ⟨8, "t8"⟩ ⟨9, "t9"⟩⟩

/-- C12, as stated, fails, in two ways.  The source may carry the empty name,
and `Delete` of the empty name removes the whole bucket, the copy in it
included.  And a later `Add` of the source, given the pointer `Get` returned
for the copy, writes the record of the copy: its generation 9 becomes 11. -/
theorem Copy_isolation_fails :
    (emptyNameWrite.find "bkt" "" =
        some { meta := addMeta "bkt" "" [1] emptyObject ⟨5, "t5"⟩, data := [1] } ∧
      ¬ ("bkt" = "bkt" ∧ "c" = "") ∧
      ((emptyNameWrite.Copy "bkt" "" "bkt" "c" ⟨8, "t8"⟩ ⟨9, "t9"⟩).1.Get "bkt" "c").2.1
        = [1] ∧
      ((emptyNameWrite.Copy "bkt" "" "bkt" "c" ⟨8, "t8"⟩ ⟨9, "t9"⟩).1.Get "bkt" "c").1.isSome
        = true ∧
      ((emptyNameWrite.Copy "bkt" "" "bkt" "c" ⟨8, "t8"⟩ ⟨9, "t9"⟩).1.Delete "bkt" "").1.Get
        "bkt" "c" = (none, [], none)) ∧
    (¬ ("dst" = "bkt" ∧ "o" = "o") ∧
      (copiedWrite.Get "dst" "o").1.map (fun m => m.Generation) = some 9 ∧
      ((copiedWrite.AddPtr "bkt" "o" [7] (MetaPtr.stored "dst" "o")
        ⟨10, "t10"⟩ ⟨11, "t11"⟩).1.Get "dst" "o").1.map (fun m => m.Generation)
        = some 11) := by
  refine ⟨⟨emptyNameWrite_find, by decide, ?_, ?_, ?_⟩, by decide, ?_, ?_⟩
  · rw [memstore.Copy_of_find emptyNameWrite "bkt" "" _ emptyNameWrite_find]
    show ((emptyNameWrite.Add "bkt" "c" _ _ _ _).1.Get "bkt" "c").2.1 = [1]
    unfold memstore.Get
    rw [memstore.find_Add_self]
  · rw [memstore.Copy_of_find emptyNameWrite "bkt" "" _ emptyNameWrite_find]
    show ((emptyNameWrite.Add "bkt" "c" _ _ _ _).1.Get "bkt" "c").1.isSome = true
    unfold memstore.Get
    rw [memstore.find_Add_self]
    rfl
  · rw [memstore.Delete_bucket]
    show (memstore.deleteBucket _ "bkt").Get "bkt" "c" = (none, [], none)
    unfold memstore.Get
    rw [memstore.find_of_no_bucket _ "bkt" "c" (memstore.getBucket_deleteBucket_self _ "bkt")]
  · unfold memstore.Get
    rw [copiedWrite_find]
    show some (addMeta _ _ _ _ _).Generation = some 9
    rw [addMeta_Generation]
  · show ((copiedWrite.AddAliased "bkt" "o" [7] "dst" "o" ⟨10, "t10"⟩ ⟨11, "t11"⟩).1.Get
      "dst" "o").1.map (fun m => m.Generation) = some 11
    unfold memstore.Get
    rw [memstore.find_AddAliased_alias copiedWrite "bkt" "dst" "o" [7] ⟨10, "t10"⟩
      ⟨11, "t11"⟩ _ copiedWrite_find (by decide)]
    show some (addMeta _ _ _ _ _).Generation = some 11
    rw [addMeta_Generation]

/-- C12, amended: in an ordered store, after `Copy` of a present source `(B,O)` to
another key `(B2,O2)`, the source is as `Get` gave it before; and a later
`Add(B,O,..)` and a later `UpdateMeta(B,O,..)`, each with a record of the
caller's own, and a later `Delete(B,O)` of a non-empty name `O`, each leave
`Get(B2,O2)` as it was right after the copy. -/
theorem Copy_isolated (ms : memstore) (hord : ms.Ordered) (B O : String) (f : memFile)
    (hf : ms.find B O = some f) (B2 O2 : String) (hne : ¬ (B2 = B ∧ O2 = O))
    (tBucket now : Time) (P2 : List Nat) (m2 : Object) (tBucket2 now2 : Time) (N : Int) :
    (ms.Copy B O B2 O2 tBucket now).1.Get B O = ms.Get B O ∧
    ((ms.Copy B O B2 O2 tBucket now).1.AddPtr B O P2 (MetaPtr.own m2) tBucket2 now2).1.Get
      B2 O2 = (ms.Copy B O B2 O2 tBucket now).1.Get B2 O2 ∧
    ((ms.Copy B O B2 O2 tBucket now).1.UpdateMetaPtr B O (MetaPtr.own m2) N).1.Get B2 O2 =
      (ms.Copy B O B2 O2 tBucket now).1.Get B2 O2 ∧
    (O ≠ "" →
      ((ms.Copy B O B2 O2 tBucket now).1.Delete B O).1.Get B2 O2 =
        (ms.Copy B O B2 O2 tBucket now).1.Get B2 O2) := by
  have hne2 : ¬ (B = B2 ∧ O = O2) := fun h => hne ⟨h.1.symm, h.2.symm⟩
  have hord2 : (ms.Copy B O B2 O2 tBucket now).1.Ordered :=
    memstore.Copy_keeps_order ms hord B O B2 O2 tBucket now
  refine ⟨?_, ?_, ?_, fun hO => ?_⟩
  · apply memstore.Get_congr
    rw [memstore.Copy_of_find ms B O f hf]
    exact memstore.find_Add_other ms B2 O2 B O _ _ _ _ hne2
  · rw [memstore.AddPtr_own]
    exact memstore.Get_congr _ _ _ _ _ _ (memstore.find_Add_other _ B O B2 O2 _ _ _ _ hne)
  · rw [memstore.UpdateMetaPtr_own]
    exact memstore.Get_congr _ _ _ _ _ _ (memstore.find_UpdateMeta_other _ B O B2 O2 _ _ hne)
  · exact memstore.Get_congr _ _ _ _ _ _
      (memstore.find_Delete_other _ B O B2 O2 hO (fun b hb => hord2 B b hb) hne)

/-- Witness of amended C12: the key "o" of `oneWrite` copied to "c" in the same
bucket. -/
theorem Copy_isolated_witness :
    oneWrite.Ordered ∧
    oneWrite.find "bkt" "o" =
      some { meta := addMeta "bkt" "o" [1] emptyObject ⟨5, "t5"⟩, data := [1] } ∧
    ¬ ("bkt" = "bkt" ∧ "c" = "o") ∧
    "o" ≠ "" ∧
    (oneWrite.Copy "bkt" "o" "bkt" "c" ⟨8, "t8"⟩ ⟨9, "t9"⟩).1.Get "bkt" "o" =
      oneWrite.Get "bkt" "o" ∧
    ((oneWrite.Copy "bkt" "o" "bkt" "c" ⟨8, "t8"⟩ ⟨9, "t9"⟩).1.AddPtr "bkt" "o" [7, 7]
      (MetaPtr.own emptyObject) ⟨10, "t10"⟩ ⟨11, "t11"⟩).1.Get "bkt" "c" =
      (oneWrite.Copy "bkt" "o" "bkt" "c" ⟨8, "t8"⟩ ⟨9, "t9"⟩).1.Get "bkt" "c" ∧
    ((oneWrite.Copy "bkt" "o" "bkt" "c" ⟨8, "t8"⟩ ⟨9, "t9"⟩).1.UpdateMetaPtr "bkt" "o"
      (MetaPtr.own emptyObject) 3).1.Get "bkt" "c" =
      (oneWrite.Copy "bkt" "o" "bkt" "c" ⟨8, "t8"⟩ ⟨9, "t9"⟩).1.Get "bkt" "c" ∧
    ("o" ≠ "" →
      ((oneWrite.Copy "bkt" "o" "bkt" "c" ⟨8, "t8"⟩ ⟨9, "t9"⟩).1.Delete "bkt" "o").1.Get
        "bkt" "c" =
        (oneWrite.Copy "bkt" "o" "bkt" "c" ⟨8, "t8"⟩ ⟨9, "t9"⟩).1.Get "bkt" "c") :=
  ⟨oneWrite_keeps_order, oneWrite_find, by decide, by decide,
    Copy_isolated oneWrite oneWrite_keeps_order "bkt" "o" _ oneWrite_find "bkt" "c" (by decide)
      ⟨8, "t8"⟩ ⟨9, "t9"⟩ [7, 7] emptyObject ⟨10, "t10"⟩ ⟨11, "t11"⟩ 3⟩

/-- C13, as stated, fails: `Add` of the key "o" of the bucket "other", given the
pointer `Get` returned for the key "o" of the bucket "bkt", writes the record
of that other key; `Get` then returns it with the generation 9 for 5. -/
theorem Add_through_pointer_changes_other_key :
    "o" ≠ "" ∧
    ¬ ("bkt" = "other" ∧ "o" = "o") ∧
    (oneWrite.Get "bkt" "o").1.map (fun m => m.Generation) = some 5 ∧
    ((oneWrite.AddPtr "other" "o" [2, 3] (MetaPtr.stored "bkt" "o")
      ⟨8, "t8"⟩ ⟨9, "t9"⟩).1.Get "bkt" "o").1.map (fun m => m.Generation) = some 9 := by
  refine ⟨by decide, by decide, ?_, ?_⟩
  · unfold memstore.Get
    rw [oneWrite_find]
    show some (addMeta _ _ _ _ _).Generation = some 5
    rw [addMeta_Generation]
  · show ((oneWrite.AddAliased "other" "o" [2, 3] "bkt" "o" ⟨8, "t8"⟩ ⟨9, "t9"⟩).1.Get
      "bkt" "o").1.map (fun m => m.Generation) = some 9
    unfold memstore.Get
    rw [memstore.find_AddAliased_alias oneWrite "other" "bkt" "o" [2, 3] ⟨8, "t8"⟩ ⟨9, "t9"⟩
      _ oneWrite_find (by decide)]
    show some (addMeta _ _ _ _ _).Generation = some 9
    rw [addMeta_Generation]

/-- C13, amended: in an ordered store, for a non-empty name `O`, each of
`Add(B,O,..)` and `UpdateMeta(B,O,..)` with a record of the caller's own, and
`Delete(B,O)`, leaves `Get(B2,O2)` as it was for every other key `(B2,O2)`,
and leaves every other bucket `B3` as it was. -/
theorem mutation_touches_only_its_key (ms : memstore) (hord : ms.Ordered)
    (B O B2 O2 : String) (hO : O ≠ "") (hne : ¬ (B2 = B ∧ O2 = O))
    (P : List Nat) (m : Object) (tBucket now : Time) (N : Int) :
    (ms.AddPtr B O P (MetaPtr.own m) tBucket now).1.Get B2 O2 = ms.Get B2 O2 ∧
    (ms.UpdateMetaPtr B O (MetaPtr.own m) N).1.Get B2 O2 = ms.Get B2 O2 ∧
    (ms.Delete B O).1.Get B2 O2 = ms.Get B2 O2 ∧
    ∀ B3 : String, B3 ≠ B →
      (ms.AddPtr B O P (MetaPtr.own m) tBucket now).1.getBucket B3 = ms.getBucket B3 ∧
      (ms.UpdateMetaPtr B O (MetaPtr.own m) N).1.getBucket B3 = ms.getBucket B3 ∧
      (ms.Delete B O).1.getBucket B3 = ms.getBucket B3 := by
  rw [memstore.AddPtr_own, memstore.UpdateMetaPtr_own]
  refine ⟨?_, ?_, ?_, fun B3 hB3 => ⟨?_, ?_, ?_⟩⟩
  · exact memstore.Get_congr _ _ _ _ _ _ (memstore.find_Add_other ms B O B2 O2 P m _ _ hne)
  · exact memstore.Get_congr _ _ _ _ _ _ (memstore.find_UpdateMeta_other ms B O B2 O2 m N hne)
  · exact memstore.Get_congr _ _ _ _ _ _
      (memstore.find_Delete_other ms B O B2 O2 hO (fun b hb => hord B b hb) hne)
  · exact memstore.getBucket_Add_other ms B O B3 P m tBucket now hB3
  · exact memstore.getBucket_UpdateMeta_other ms B O B3 m N hB3
  · exact memstore.getBucket_Delete_other ms B O B3 hO hB3

/-- Witness of amended C13: mutations of "a/1" in `threeObjects`, seen from "a/0". -/
theorem mutation_touches_only_its_key_witness :
    threeObjects.Ordered ∧
    "a/1" ≠ "" ∧
    ¬ ("bkt" = "bkt" ∧ "a/0" = "a/1") ∧
    (threeObjects.AddPtr "bkt" "a/1" [9] (MetaPtr.own emptyObject) ⟨40, "t40"⟩
      ⟨41, "t41"⟩).1.Get "bkt" "a/0" = threeObjects.Get "bkt" "a/0" ∧
    (threeObjects.UpdateMetaPtr "bkt" "a/1" (MetaPtr.own emptyObject) 3).1.Get "bkt" "a/0" =
      threeObjects.Get "bkt" "a/0" ∧
    (threeObjects.Delete "bkt" "a/1").1.Get "bkt" "a/0" = threeObjects.Get "bkt" "a/0" ∧
    ∀ B3 : String, B3 ≠ "bkt" →
      (threeObjects.AddPtr "bkt" "a/1" [9] (MetaPtr.own emptyObject) ⟨40, "t40"⟩
        ⟨41, "t41"⟩).1.getBucket B3 = threeObjects.getBucket B3 ∧
      (threeObjects.UpdateMetaPtr "bkt" "a/1" (MetaPtr.own emptyObject) 3).1.getBucket B3 =
        threeObjects.getBucket B3 ∧
      (threeObjects.Delete "bkt" "a/1").1.getBucket B3 = threeObjects.getBucket B3 :=
  ⟨threeObjects_keeps_order, by decide, by decide,
    mutation_touches_only_its_key threeObjects threeObjects_keeps_order "bkt" "a/1" "bkt" "a/0"
      (by decide) (by decide) [9] emptyObject ⟨40, "t40"⟩ ⟨41, "t41"⟩ 3⟩

/-- C14. `CreateBucket` is idempotent: in every store `ms1` in which the bucket
`B1` exists, it returns no error and the store as it was, so that
`GetBucketMeta(B1)` is as before; in every store `ms2` in which the bucket `B2`
does not exist, the empty store included, it returns no error, and
afterwards `B2` exists, created at the clock sample, and holds no object,
and every other bucket is as it was. -/
theorem CreateBucket_idempotent (ms1 : memstore) (B1 : String) (b1 : memBucket)
    (h1 : ms1.getBucket B1 = some b1) (ms2 : memstore) (B2 : String)
    (h2 : ms2.getBucket B2 = none) (t : Time) :
    ms1.CreateBucket B1 t = (ms1, none) ∧
    (ms1.CreateBucket B1 t).1.GetBucketMeta B1 = ms1.GetBucketMeta B1 ∧
    (ms2.CreateBucket B2 t).2 = none ∧
    (ms2.CreateBucket B2 t).1.getBucket B2 = some { created := t, files := BTree.New } ∧
    (∀ O : String, (ms2.CreateBucket B2 t).1.Get B2 O = (none, [], none)) ∧
    (∀ B3 : String, B3 ≠ B2 → (ms2.CreateBucket B2 t).1.getBucket B3 = ms2.getBucket B3) := by
  have hsame : ms1.CreateBucket B1 t = (ms1, none) := by
    unfold memstore.CreateBucket
    unfold memstore.getBucket at h1
    rw [h1]
  have hnew : ms2.CreateBucket B2 t =
      (ms2.setBucket B2 { created := t, files := BTree.New }, none) := by
    unfold memstore.CreateBucket
    unfold memstore.getBucket at h2
    rw [h2]
  refine ⟨hsame, by rw [hsame], by rw [hnew], ?_, fun O => ?_, fun B3 hB3 => ?_⟩
  · rw [hnew]
    exact memstore.getBucket_setBucket_self ms2 B2 _
  · rw [hnew]
    unfold memstore.Get
    rw [memstore.find_setBucket_self]
    rfl
  · exact memstore.getBucket_CreateBucket_other ms2 B2 B3 t hB3

/-- Witness of C14: in `threeObjects` the bucket "bkt" exists; in the empty store
the bucket "bkt" does not. -/
theorem CreateBucket_idempotent_witness :
    threeObjects.getBucket "bkt" = some threeObjectsBucket ∧
    NewMemStore.getBucket "bkt" = none ∧
    threeObjects.CreateBucket "bkt" ⟨50, "t50"⟩ = (threeObjects, none) ∧
    (threeObjects.CreateBucket "bkt" ⟨50, "t50"⟩).1.GetBucketMeta "bkt" =
      threeObjects.GetBucketMeta "bkt" ∧
    (NewMemStore.CreateBucket "bkt" ⟨50, "t50"⟩).2 = none ∧
    (NewMemStore.CreateBucket "bkt" ⟨50, "t50"⟩).1.getBucket "bkt" =
      some { created := ⟨50, "t50"⟩, files := BTree.New } ∧
    (∀ O : String,
      (NewMemStore.CreateBucket "bkt" ⟨50, "t50"⟩).1.Get "bkt" O = (none, [], none)) ∧
    (∀ B3 : String, B3 ≠ "bkt" →
      (NewMemStore.CreateBucket "bkt" ⟨50, "t50"⟩).1.getBucket B3 =
        NewMemStore.getBucket B3) :=
  ⟨threeObjects_bucket, rfl,
    CreateBucket_idempotent threeObjects "bkt" threeObjectsBucket threeObjects_bucket
      NewMemStore "bkt" rfl ⟨50, "t50"⟩⟩

/-- C15, as stated, fails, in two ways.  A later full write of the same key sets
the metageneration back to 1, here after `UpdateMeta` had set it to 7.  And
`Add` of another key, given the pointer `Get` returned for the key, sets the
metageneration of the key to 1 through the pointer. -/
theorem metageneration_reset_by_Add :
    updatedWrite.metageneration "bkt" "o" = some 7 ∧
    (updatedWrite.Add "bkt" "o" [2] emptyObject ⟨8, "t8"⟩ ⟨9, "t9"⟩).1.metageneration
      "bkt" "o" = some 1 ∧
    ¬ ("bkt" = "other" ∧ "o" = "o") ∧
    (updatedWrite.AddPtr "other" "o" [2] (MetaPtr.stored "bkt" "o")
      ⟨8, "t8"⟩ ⟨9, "t9"⟩).1.metageneration "bkt" "o" = some 1 := by
  refine ⟨?_, ?_, by decide, ?_⟩
  · unfold memstore.metageneration
    rw [updatedWrite_find]
    rfl
  · unfold memstore.metageneration
    rw [memstore.find_Add_self, Option.map_some', addMeta_Metageneration]
  · show (updatedWrite.AddAliased "other" "o" [2] "bkt" "o" ⟨8, "t8"⟩
      ⟨9, "t9"⟩).1.metageneration "bkt" "o" = some 1
    unfold memstore.metageneration
    rw [memstore.find_AddAliased_alias updatedWrite "other" "bkt" "o" [2] ⟨8, "t8"⟩ ⟨9, "t9"⟩
      _ updatedWrite_find (by decide)]
    show some (addMeta _ _ _ _ _).Metageneration = some 1
    rw [addMeta_Metageneration]

/-- C15, amended: in an ordered store, the metageneration stored for a key
`(B,O)` is 1 after every `Add` of the key, the first and the later ones, and
after a `Copy` to the key from a present source; it is `N` after
`UpdateMeta(B,O,m,N)` of the present key; and it is left as it was by `Add`
and `UpdateMeta` of another key with a record of the caller's own, by `Copy`
to another key, by `Delete` of another object, by `Delete` of another
bucket, and by `CreateBucket`. -/
theorem metageneration_set_by_writes_only (ms : memstore) (hord : ms.Ordered)
    (B O : String) (P : List Nat) (m : Object) (tBucket now : Time) (N : Int) :
    (ms.AddPtr B O P (MetaPtr.own m) tBucket now).1.metageneration B O = some 1 ∧
    (∀ B0 O0 : String, ms.find B0 O0 ≠ none →
      (ms.Copy B0 O0 B O tBucket now).1.metageneration B O = some 1) ∧
    (ms.find B O ≠ none →
      (ms.UpdateMetaPtr B O (MetaPtr.own m) N).1.metageneration B O = some N) ∧
    (∀ B1 O1 : String, ¬ (B = B1 ∧ O = O1) →
      (ms.AddPtr B1 O1 P (MetaPtr.own m) tBucket now).1.metageneration B O =
        ms.metageneration B O ∧
      (ms.UpdateMetaPtr B1 O1 (MetaPtr.own m) N).1.metageneration B O =
        ms.metageneration B O ∧
      (∀ B0 O0 : String,
        (ms.Copy B0 O0 B1 O1 tBucket now).1.metageneration B O = ms.metageneration B O) ∧
      (O1 ≠ "" → (ms.Delete B1 O1).1.metageneration B O = ms.metageneration B O)) ∧
    (∀ B1 : String, B1 ≠ B →
      (ms.Delete B1 "").1.metageneration B O = ms.metageneration B O) ∧
    (∀ B1 : String,
      (ms.CreateBucket B1 tBucket).1.metageneration B O = ms.metageneration B O) := by
  refine ⟨?_, fun B0 O0 h0 => ?_, fun h => ?_, fun B1 O1 hne => ⟨?_, ?_, fun B0 O0 => ?_,
    fun hO1 => ?_⟩, fun B1 hB1 => ?_, fun B1 => ?_⟩
  · rw [memstore.AddPtr_own]
    unfold memstore.metageneration
    rw [memstore.find_Add_self, Option.map_some', addMeta_Metageneration]
  · cases hf : ms.find B0 O0 with
    | none => exact absurd hf h0
    | some f =>
      rw [memstore.Copy_of_find ms B0 O0 f hf]
      unfold memstore.metageneration
      show Option.map _ ((ms.Add B O f.data _ tBucket now).1.find B O) = some 1
      rw [memstore.find_Add_self, Option.map_some', addMeta_Metageneration]
  · cases hf : ms.find B O with
    | none => exact absurd hf h
    | some f =>
      rw [memstore.UpdateMetaPtr_own]
      unfold memstore.metageneration
      rw [memstore.find_UpdateMeta_self ms B O f hf]
      rfl
  · rw [memstore.AddPtr_own]
    unfold memstore.metageneration
    rw [memstore.find_Add_other ms B1 O1 B O P m tBucket now hne]
  · rw [memstore.UpdateMetaPtr_own]
    unfold memstore.metageneration
    rw [memstore.find_UpdateMeta_other ms B1 O1 B O m N hne]
  · unfold memstore.metageneration
    rw [memstore.find_Copy_other ms B0 O0 B1 O1 B O tBucket now hne]
  · unfold memstore.metageneration
    rw [memstore.find_Delete_other ms B1 O1 B O hO1 (fun b hb => hord B1 b hb) hne]
  · unfold memstore.metageneration
    rw [memstore.Delete_bucket]
    show Option.map _ ((ms.deleteBucket B1).find B O) = _
    rw [memstore.find_deleteBucket_other ms B1 B O (fun h => hB1 h.symm)]
  · unfold memstore.metageneration
    rw [memstore.find_CreateBucket]

/-- Witness of amended C15: the key "o" of `oneWrite`, which is present. -/
theorem metageneration_set_by_writes_only_witness :
    oneWrite.Ordered ∧
    oneWrite.find "bkt" "o" ≠ none ∧
    (oneWrite.AddPtr "bkt" "o" [2] (MetaPtr.own emptyObject) ⟨8, "t8"⟩
      ⟨9, "t9"⟩).1.metageneration "bkt" "o" = some 1 ∧
    (∀ B0 O0 : String, oneWrite.find B0 O0 ≠ none →
      (oneWrite.Copy B0 O0 "bkt" "o" ⟨8, "t8"⟩ ⟨9, "t9"⟩).1.metageneration "bkt" "o"
        = some 1) ∧
    (oneWrite.find "bkt" "o" ≠ none →
      (oneWrite.UpdateMetaPtr "bkt" "o" (MetaPtr.own emptyObject) 7).1.metageneration
        "bkt" "o" = some 7) ∧
    (∀ B1 O1 : String, ¬ ("bkt" = B1 ∧ "o" = O1) →
      (oneWrite.AddPtr B1 O1 [2] (MetaPtr.own emptyObject) ⟨8, "t8"⟩
        ⟨9, "t9"⟩).1.metageneration "bkt" "o" = oneWrite.metageneration "bkt" "o" ∧
      (oneWrite.UpdateMetaPtr B1 O1 (MetaPtr.own emptyObject) 7).1.metageneration "bkt" "o" =
        oneWrite.metageneration "bkt" "o" ∧
      (∀ B0 O0 : String,
        (oneWrite.Copy B0 O0 B1 O1 ⟨8, "t8"⟩ ⟨9, "t9"⟩).1.metageneration "bkt" "o" =
          oneWrite.metageneration "bkt" "o") ∧
      (O1 ≠ "" →
        (oneWrite.Delete B1 O1).1.metageneration "bkt" "o" =
          oneWrite.metageneration "bkt" "o")) ∧
    (∀ B1 : String, B1 ≠ "bkt" →
      (oneWrite.Delete B1 "").1.metageneration "bkt" "o" =
        oneWrite.metageneration "bkt" "o") ∧
    (∀ B1 : String,
      (oneWrite.CreateBucket B1 ⟨8, "t8"⟩).1.metageneration "bkt" "o" =
        oneWrite.metageneration "bkt" "o") :=
  ⟨oneWrite_keeps_order, by rw [oneWrite_find]; exact Option.some_ne_none _,
    metageneration_set_by_writes_only oneWrite oneWrite_keeps_order "bkt" "o" [2] emptyObject
      ⟨8, "t8"⟩ ⟨9, "t9"⟩ 7⟩

/-- C16. Identity fields cannot be desynchronised: for every present key `(B,O)`,
in every state of the store and so in every state reached from the empty
store, the metadata `GetMeta(B,O)` returns has bucket `B`, name `O` and size
the length of the payload `Get(B,O)` returns. -/
theorem GetMeta_identity_fields (ms : memstore) (B O : String) (f : memFile)
    (hf : ms.find B O = some f) :
    ∃ meta : Object, ms.GetMeta B O = (some meta, none) ∧
      meta.Bucket = B ∧ meta.Name = O ∧ meta.Size = (ms.Get B O).2.1.length := by
  refine ⟨initMeta f.meta B O f.data.length, ?_, rfl, rfl, ?_⟩
  · unfold memstore.GetMeta
    rw [hf]
  · unfold memstore.Get
    rw [hf]
    rfl

/-- Witness of C16: a key written by `Add` and `UpdateMeta` with a caller's record
that names another bucket, another object and another size. -/
theorem GetMeta_identity_fields_witness :
    wrongIdentityWrites.find "bkt" "o" =
      some { meta := updateMetaRecord "bkt" "o" wrongIdentity 7, data := [1, 2, 3] } ∧
    ∃ meta : Object, wrongIdentityWrites.GetMeta "bkt" "o" = (some meta, none) ∧
      meta.Bucket = "bkt" ∧ meta.Name = "o" ∧
      meta.Size = (wrongIdentityWrites.Get "bkt" "o").2.1.length :=
  ⟨wrongIdentityWrites_find,
    GetMeta_identity_fields wrongIdentityWrites "bkt" "o" _ wrongIdentityWrites_find⟩

/-- C17. Server-owned write fields cannot be overridden: when two caller records
agree on every field but generation, metageneration and updated timestamp,
`Add` of the same key and payload at the same clock sample `t` stores for both
the generation `t` in nanoseconds, the updated timestamp `t` formatted and
the metageneration 1, and indeed the same record; and when the caller's
creation timestamp is not set, the stored one is the stored updated one. -/
theorem Add_server_fields_not_overridden (ms : memstore) (B O : String) (P : List Nat)
    (m1 m2 : Object) (tBucket t : Time)
    (hsame : m1.Bucket = m2.Bucket ∧ m1.Name = m2.Name ∧ m1.Size = m2.Size ∧
      m1.TimeCreated = m2.TimeCreated ∧ m1.Metadata = m2.Metadata) :
    ∃ f1 f2 : memFile,
      (ms.Add B O P m1 tBucket t).1.find B O = some f1 ∧
      (ms.Add B O P m2 tBucket t).1.find B O = some f2 ∧
      f1.meta.Generation = t.unixNano ∧ f2.meta.Generation = t.unixNano ∧
      f1.meta.Updated = t.rfc3339Nano ∧ f2.meta.Updated = t.rfc3339Nano ∧
      f1.meta.Metageneration = 1 ∧ f2.meta.Metageneration = 1 ∧
      f1 = f2 ∧
      (m1.TimeCreated = "" →
        f1.meta.TimeCreated = f1.meta.Updated ∧ f2.meta.TimeCreated = f2.meta.Updated) := by
  refine ⟨_, _, memstore.find_Add_self .., memstore.find_Add_self .., addMeta_Generation ..,
    addMeta_Generation .., addMeta_Updated .., addMeta_Updated .., addMeta_Metageneration ..,
    addMeta_Metageneration .., ?_, fun hcreated => ⟨?_, ?_⟩⟩
  · have : addMeta B O P m1 t = addMeta B O P m2 t := by
      unfold addMeta
      simp [initMeta, scrubMeta, hsame.2.2.2.1, hsame.2.2.2.2]
    rw [this]
  · show (addMeta _ _ _ _ _).TimeCreated = (addMeta _ _ _ _ _).Updated
    rw [addMeta_TimeCreated _ _ _ _ _ hcreated, addMeta_Updated]
  · show (addMeta _ _ _ _ _).TimeCreated = (addMeta _ _ _ _ _).Updated
    rw [addMeta_TimeCreated _ _ _ _ _ (hsame.2.2.2.1 ▸ hcreated), addMeta_Updated]

/-- Witness of C17: the second record sets generation 77, metageneration 9 and
an updated timestamp, with no creation timestamp in either. -/
theorem Add_server_fields_not_overridden_witness :
    (emptyObject.Bucket = emptyObject.Bucket ∧ emptyObject.Name = emptyObject.Name ∧
      emptyObject.Size = emptyObject.Size ∧
      emptyObject.TimeCreated =
        ({ emptyObject with Generation := 77, Metageneration := 9, Updated := "later" } :
          Object).TimeCreated ∧
      emptyObject.Metadata = emptyObject.Metadata) ∧
    emptyObject.TimeCreated = "" ∧
    ∃ f1 f2 : memFile,
      (NewMemStore.Add "bkt" "o" [1] emptyObject ⟨4, "t4"⟩ ⟨5, "t5"⟩).1.find "bkt" "o"
        = some f1 ∧
      (NewMemStore.Add "bkt" "o" [1]
        { emptyObject with Generation := 77, Metageneration := 9, Updated := "later" }
        ⟨4, "t4"⟩ ⟨5, "t5"⟩).1.find "bkt" "o" = some f2 ∧
      f1.meta.Generation = 5 ∧ f2.meta.Generation = 5 ∧
      f1.meta.Updated = "t5" ∧ f2.meta.Updated = "t5" ∧
      f1.meta.Metageneration = 1 ∧ f2.meta.Metageneration = 1 ∧
      f1 = f2 ∧
      (emptyObject.TimeCreated = "" →
        f1.meta.TimeCreated = f1.meta.Updated ∧ f2.meta.TimeCreated = f2.meta.Updated) :=
  ⟨⟨rfl, rfl, rfl, rfl, rfl⟩, rfl,
    Add_server_fields_not_overridden NewMemStore "bkt" "o" [1] emptyObject
      { emptyObject with Generation := 77, Metageneration := 9, Updated := "later" }
      ⟨4, "t4"⟩ ⟨5, "t5"⟩ ⟨rfl, rfl, rfl, rfl, rfl⟩⟩

/-- C18, the code at a failing input: `Delete` with an empty name writes the map
while the mutex is not held, where `getBucket` and `CreateBucket` (of a
bucket present or absent) make their accesses with the mutex held. -/
theorem Delete_bucket_writes_map_unlocked :
    lockHeldAtAccesses LockMode.free (memstore.DeleteEvents "bkt" "") = false ∧
    lockHeldAtAccesses LockMode.free (memstore.DeleteEvents "bkt" "a/1") = true ∧
    lockHeldAtAccesses LockMode.free getBucketEvents = true ∧
    lockHeldAtAccesses LockMode.free (threeObjects.CreateBucketEvents "bkt") = true ∧
    lockHeldAtAccesses LockMode.free (threeObjects.CreateBucketEvents "other") = true := by
  have h1 : threeObjects.buckets "bkt" = some threeObjectsBucket := threeObjects_bucket
  have h2 : threeObjects.buckets "other" = none := threeObjects_other_bucket
  refine ⟨by decide, by decide, by decide, ?_, ?_⟩
  · unfold memstore.CreateBucketEvents
    rw [h1]
    decide
  · unfold memstore.CreateBucketEvents
    rw [h2]
    decide

/-- C19, the code at a failing input: after `Add` of a payload of one byte and
`UpdateMeta`, a state reached from the empty store, `Get` returns metadata of
size 0 and `GetMeta` metadata of size 1, where the claim has them agree. -/
theorem Get_GetMeta_sizes_differ_after_UpdateMeta :
    (updatedWrite.Get "bkt" "o").1.map (fun m => m.Size) = some 0 ∧
    (updatedWrite.GetMeta "bkt" "o").1.map (fun m => m.Size) = some 1 ∧
    (updatedWrite.Get "bkt" "o").2.1 = [1] := by
  unfold memstore.Get memstore.GetMeta
  rw [updatedWrite_find]
  exact ⟨rfl, rfl, rfl⟩

/-- How far `Get` and `GetMeta` agree: for every present key they return metadata
with the same name; right after an `Add` of the key they also return the same
size, the length of the payload; right after an `UpdateMeta` of the key, `Get`
returns the size 0 and `GetMeta` the length of the payload. -/
theorem Get_GetMeta_agreement (ms : memstore) (B O : String) (f : memFile)
    (hf : ms.find B O = some f) (P : List Nat) (m : Object) (tBucket now : Time) (N : Int) :
    (∃ g gm : Object, ms.Get B O = (some g, f.data, none) ∧
      ms.GetMeta B O = (some gm, none) ∧ g.Name = gm.Name) ∧
    (∃ g gm : Object, (ms.Add B O P m tBucket now).1.Get B O = (some g, P, none) ∧
      (ms.Add B O P m tBucket now).1.GetMeta B O = (some gm, none) ∧
      g.Name = gm.Name ∧ g.Size = gm.Size ∧ gm.Size = P.length) ∧
    (∃ g gm : Object, (ms.UpdateMeta B O m N).1.Get B O = (some g, f.data, none) ∧
      (ms.UpdateMeta B O m N).1.GetMeta B O = (some gm, none) ∧
      g.Name = gm.Name ∧ g.Size = 0 ∧ gm.Size = f.data.length) := by
  obtain ⟨b, hb, hget⟩ := memstore.bucket_of_find ms B O f hf
  refine ⟨⟨f.meta, initMeta f.meta B O f.data.length, ?_, ?_, ?_⟩,
    ⟨addMeta B O P m now, initMeta (addMeta B O P m now) B O P.length, ?_, ?_, ?_, ?_, rfl⟩,
    ⟨updateMetaRecord B O m N, initMeta (updateMetaRecord B O m N) B O f.data.length,
      ?_, ?_, rfl, rfl, rfl⟩⟩
  · unfold memstore.Get
    rw [hf]
  · unfold memstore.GetMeta
    rw [hf]
  · exact BTree.Get_name b.files O f hget
  · unfold memstore.Get
    rw [memstore.find_Add_self]
  · unfold memstore.GetMeta
    rw [memstore.find_Add_self]
  · exact addMeta_Name ..
  · exact addMeta_Size ..
  · unfold memstore.Get
    rw [memstore.find_UpdateMeta_self ms B O f hf]
  · unfold memstore.GetMeta
    rw [memstore.find_UpdateMeta_self ms B O f hf]

/-- The agreement of `Get` and `GetMeta` at the key "o" of `oneWrite`. -/
theorem Get_GetMeta_agreement_witness :
    oneWrite.find "bkt" "o" =
      some { meta := addMeta "bkt" "o" [1] emptyObject ⟨5, "t5"⟩, data := [1] } ∧
    (∃ g gm : Object, oneWrite.Get "bkt" "o" = (some g, [1], none) ∧
      oneWrite.GetMeta "bkt" "o" = (some gm, none) ∧ g.Name = gm.Name) ∧
    (∃ g gm : Object,
      (oneWrite.Add "bkt" "o" [2, 3] emptyObject ⟨8, "t8"⟩ ⟨9, "t9"⟩).1.Get "bkt" "o"
        = (some g, [2, 3], none) ∧
      (oneWrite.Add "bkt" "o" [2, 3] emptyObject ⟨8, "t8"⟩ ⟨9, "t9"⟩).1.GetMeta "bkt" "o"
        = (some gm, none) ∧
      g.Name = gm.Name ∧ g.Size = gm.Size ∧ gm.Size = 2) ∧
    (∃ g gm : Object,
      (oneWrite.UpdateMeta "bkt" "o" emptyObject 7).1.Get "bkt" "o" = (some g, [1], none) ∧
      (oneWrite.UpdateMeta "bkt" "o" emptyObject 7).1.GetMeta "bkt" "o" = (some gm, none) ∧
      g.Name = gm.Name ∧ g.Size = 0 ∧ gm.Size = 1) :=
  ⟨oneWrite_find,
    Get_GetMeta_agreement oneWrite "bkt" "o" _ oneWrite_find [2, 3] emptyObject ⟨8, "t8"⟩
      ⟨9, "t9"⟩ 7⟩

/-- C20, as stated, fails: `UpdateMeta` with a caller's record that sets neither
field replaces the generation 5 and the creation timestamp "t5" stored by the
write with unset ones. -/
theorem UpdateMeta_drops_generation_and_created :
    oneWrite.generation "bkt" "o" = some 5 ∧
    oneWrite.timeCreated "bkt" "o" = some "t5" ∧
    (oneWrite.UpdateMeta "bkt" "o" emptyObject 7).1.generation "bkt" "o" = some 0 ∧
    (oneWrite.UpdateMeta "bkt" "o" emptyObject 7).1.timeCreated "bkt" "o" = some "" := by
  refine ⟨?_, ?_, ?_, ?_⟩
  · unfold memstore.generation
    rw [oneWrite_find, Option.map_some', addMeta_Generation]
  · unfold memstore.timeCreated
    rw [oneWrite_find, Option.map_some', addMeta_TimeCreated _ _ _ _ _ rfl]
  · unfold memstore.generation
    rw [memstore.find_UpdateMeta_self oneWrite "bkt" "o" _ oneWrite_find]
    rfl
  · unfold memstore.timeCreated
    rw [memstore.find_UpdateMeta_self oneWrite "bkt" "o" _ oneWrite_find]
    rfl

/-- C20, amended: after `UpdateMeta(B,O,m,N)` of a present key, the record stored
for the key is the one `UpdateMeta` makes of the caller's record `m` (identity
fields forced, scrubbed, metageneration `N`), beside the payload stored
before: the generation and the creation timestamp stored afterwards are those
of that record, the same whatever was stored for the key before the call, so
the ones stored before are not kept. -/
theorem UpdateMeta_stores_callers_record (ms : memstore) (B O : String) (f : memFile)
    (hf : ms.find B O = some f) (m : Object) (N : Int) :
    (ms.UpdateMeta B O m N).1.find B O =
      some { meta := updateMetaRecord B O m N, data := f.data } ∧
    (ms.UpdateMeta B O m N).1.generation B O = some (updateMetaRecord B O m N).Generation ∧
    (ms.UpdateMeta B O m N).1.timeCreated B O = some (updateMetaRecord B O m N).TimeCreated ∧
    ∀ (ms2 : memstore) (f2 : memFile), ms2.find B O = some f2 →
      (ms2.UpdateMeta B O m N).1.generation B O = (ms.UpdateMeta B O m N).1.generation B O ∧
      (ms2.UpdateMeta B O m N).1.timeCreated B O =
        (ms.UpdateMeta B O m N).1.timeCreated B O := by
  refine ⟨memstore.find_UpdateMeta_self ms B O f hf m N, ?_, ?_, fun ms2 f2 hf2 => ⟨?_, ?_⟩⟩
  · unfold memstore.generation
    rw [memstore.find_UpdateMeta_self ms B O f hf]
    rfl
  · unfold memstore.timeCreated
    rw [memstore.find_UpdateMeta_self ms B O f hf]
    rfl
  · unfold memstore.generation
    rw [memstore.find_UpdateMeta_self ms B O f hf, memstore.find_UpdateMeta_self ms2 B O f2 hf2]
    rfl
  · unfold memstore.timeCreated
    rw [memstore.find_UpdateMeta_self ms B O f hf, memstore.find_UpdateMeta_self ms2 B O f2 hf2]
    rfl

/-- Witness of amended C20: the key "o" of `oneWrite`, with a caller's record
that carries a creation timestamp of its own. -/
theorem UpdateMeta_stores_callers_record_witness :
    oneWrite.find "bkt" "o" =
      some { meta := addMeta "bkt" "o" [1] emptyObject ⟨5, "t5"⟩, data := [1] } ∧
    (oneWrite.UpdateMeta "bkt" "o" stampedObject 7).1.find "bkt" "o" =
      some { meta := updateMetaRecord "bkt" "o" stampedObject 7, data := [1] } ∧
    (oneWrite.UpdateMeta "bkt" "o" stampedObject 7).1.generation "bkt" "o" =
      some (updateMetaRecord "bkt" "o" stampedObject 7).Generation ∧
    (oneWrite.UpdateMeta "bkt" "o" stampedObject 7).1.timeCreated "bkt" "o" =
      some (updateMetaRecord "bkt" "o" stampedObject 7).TimeCreated ∧
    ∀ (ms2 : memstore) (f2 : memFile), ms2.find "bkt" "o" = some f2 →
      (ms2.UpdateMeta "bkt" "o" stampedObject 7).1.generation "bkt" "o" =
        (oneWrite.UpdateMeta "bkt" "o" stampedObject 7).1.generation "bkt" "o" ∧
      (ms2.UpdateMeta "bkt" "o" stampedObject 7).1.timeCreated "bkt" "o" =
        (oneWrite.UpdateMeta "bkt" "o" stampedObject 7).1.timeCreated "bkt" "o" :=
  ⟨oneWrite_find,
    UpdateMeta_stores_callers_record oneWrite "bkt" "o" _ oneWrite_find stampedObject 7⟩

end gcsemu
